import Mathlib

/-!
# Verification of the ansari-interiors client-side scripts

Shallow embedding of `src/js/animation.js` (the `ScrollAnimation` class) and
of the mobile-menu toggle script, together with proofs of the behavioural
claims about them.

The DOM is modelled as a list of elements; an element is identified by its
index in that list.  Class lists follow `DOMTokenList` semantics (no
duplicate tokens).  The only attribute the scripts touch is `data-animated`,
modelled as an `Option String` field.  `IntersectionObserver` is modelled by
an explicit `observed` index set, `requestAnimationFrame` by an explicit
queue of pending activations, and the browser's per-frame ordering (pending
animation-frame callbacks run before the next batch of intersection
notifications is delivered) by the `stepF` relation below.
-/

/-- A DOM element: tag name, class list (DOMTokenList: duplicate-free),
the `data-animated` attribute, and the indices of its ancestor elements
(used by `Element.closest`). -/
structure Elem where
  tag : String
  classes : List String
  dataAnimated : Option String
  ancestors : List Nat
  deriving Repr, DecidableEq

/-- `DOMTokenList.add`: append the token unless already present. -/
def classAdd (c : String) (l : List String) : List String :=
  if l.contains c then l else l ++ [c]

/-- `DOMTokenList.remove`: drop the token. -/
def classRemove (c : String) (l : List String) : List String :=
  l.filter (fun d => d ≠ c)

/-- `DOMTokenList.toggle`: remove the token if present, else append it. -/
def classToggle (c : String) (l : List String) : List String :=
  if l.contains c then classRemove c l else l ++ [c]

/-- ASCII lower-casing of a character (the effect of `toLowerCase` on the
tag names appearing in this code base). -/
def lcChar (c : Char) : Char :=
  if 65 ≤ c.toNat && c.toNat ≤ 90 then Char.ofNat (c.toNat + 32) else c

/-- Case-insensitive string comparison, as in
`element.tagName.toLowerCase() === selector.toLowerCase()`. -/
def eqIgnoreCase (a b : String) : Bool :=
  a.data.map lcChar == b.data.map lcChar

/-- Does `pat` occur at the head of `l`? -/
def leadMatch (pat l : List Char) : Bool :=
  match pat, l with
  | [], _ => true
  | _ :: _, [] => false
  | a :: ps, b :: ls => a == b && leadMatch ps ls

/-- Split a character list at the first occurrence of `pat`, returning the
part before and the part after the occurrence (JavaScript
`String.prototype.replace` with a string pattern replaces only the first
occurrence, and `includes`/`split` search left to right). -/
def breakFirst (pat : List Char) : List Char → Option (List Char × List Char)
  | [] => none
  | c :: rest =>
    if leadMatch pat (c :: rest) then some ([], (c :: rest).drop pat.length)
    else
      match breakFirst pat rest with
      | some (a, b) => some (c :: a, b)
      | none => none

/-- Matching of a *simple* selector against one element, the way the
browser's `querySelectorAll` treats the simple selectors used by this code:
a leading dot means "has this class", otherwise it is a (case-insensitive)
tag name. -/
def simpleMatchC (s : List Char) (e : Elem) : Bool :=
  match s with
  | '.' :: rest => e.classes.contains (String.mk rest)
  | _ => eqIgnoreCase (String.mk s) e.tag

/-- Browser selector matching for the selector grammar this repository
uses in `querySelectorAll`: a simple selector optionally refined by a
single `:not(<simple>)`. -/
def cssMatches (sel : String) (e : Elem) : Bool :=
  match breakFirst ":not(".data sel.data with
  | some (a, b) => simpleMatchC a e && !(simpleMatchC (b.dropLast) e)
  | none => simpleMatchC sel.data e

/-- The document: elements in document order, identified by index. -/
abbrev Doc := List Elem

/-- `document.querySelectorAll(sel)`: the indices of all matching elements,
in document order. -/
def querySelectorAll (sel : String) (d : Doc) : List Nat :=
  (List.range d.length).filter (fun i =>
    match d[i]? with
    | some e => cssMatches sel e
    | none => false)

/-- `this.animationClasses` from `animation.js`. -/
def animationClasses : List String :=
  ["fade-in-up", "fade-in-down", "fade-in-left", "fade-in-right", "scale-in"]

/-- `this.targetElements` from `animation.js` (the inclusion selectors). -/
def targetElements : List String :=
  ["h1", "h2", "h3", "h4", "h5", "h6",
   "p", "span", "div",
   "form", "input", "textarea", "button",
   ".card", ".service-card", ".stat-card",
   ".contact__item", ".about__text", ".hero__text",
   ".footer__section:not(.footer__bottom)", ".social-link",
   ".services-overview__title", ".why-choose-services__title", ".service-process__title",
   ".cta__title", ".services-hero__title"]

/-- `this.excludedElements` from `animation.js` (the exclusion selectors). -/
def excludedElements : List String :=
  [".footer__bottom",
   ".footer__bottom *",
   ".footer__copyright",
   ".footer__bottom-links",
   ".footer__bottom-content"]

/-- `element.closest(base) !== null`: the element itself or one of its
ancestors matches `base`. -/
def elemClosest (d : Doc) (e : Elem) (base : String) : Bool :=
  cssMatches base e ||
    e.ancestors.any (fun a =>
      match d[a]? with
      | some ae => cssMatches base ae
      | none => false)

/-- `selector.replace(' *', '')`: drop the first occurrence of `" *"`. -/
def stripWildcard (sel : String) : String :=
  match breakFirst " *".data sel.data with
  | some (a, b) => String.mk (a ++ b)
  | none => sel

/-- `ScrollAnimation.isElementExcluded` (animation.js lines 239-252):
a wildcard selector checks `closest` of the base selector, a class selector
checks the class list, and anything else is a tag-name comparison. -/
def isElementExcluded (d : Doc) (e : Elem) : Bool :=
  excludedElements.any (fun selector =>
    if selector.data.contains '*' then
      elemClosest d e (stripWildcard selector)
    else
      match selector.data with
      | '.' :: rest => e.classes.contains (String.mk rest)
      | _ => eqIgnoreCase selector e.tag)

/-- `ScrollAnimation.shouldAnimateElement` (animation.js lines 223-232). -/
def shouldAnimateElement (e : Elem) : Bool :=
  targetElements.any (fun selector =>
    match selector.data with
    | '.' :: rest => e.classes.contains (String.mk rest)
    | _ => eqIgnoreCase selector e.tag)

/-- The state of one `ScrollAnimation` instance together with the document
and the scheduling queues of the host browser.  `acts` is a ghost log of
every activation performed (each run of the body of the
`requestAnimationFrame` callback appends the element's index); `warnings`
counts `console.warn` calls. -/
structure SA where
  doc : Doc
  observed : List Nat
  raf : List Nat
  acts : List Nat
  warnings : Nat
  deriving Repr, DecidableEq

/-- `IntersectionObserver.observe`: a no-op when the target is already
observed, otherwise the target is added. -/
def observeAdd (i : Nat) (obs : List Nat) : List Nat :=
  if obs.contains i then obs else obs ++ [i]

/-- Observe each element of a batch in order
(`elementsToAnimate.forEach(el => this.observer.observe(el))`). -/
def observeAddAll : List Nat → List Nat → List Nat
  | [], obs => obs
  | i :: rest, obs => observeAddAll rest (observeAdd i obs)

/-- True when the element carries the `data-animated="true"` marker. -/
def attrTrue (d : Doc) (i : Nat) : Bool :=
  match d[i]? with
  | some e => e.dataAnimated == some "true"
  | none => false

/-- True when the element's class list contains `active`. -/
def hasActive (d : Doc) (i : Nat) : Bool :=
  match d[i]? with
  | some e => e.classes.contains "active"
  | none => false

/-- Body of the per-element loop of `ScrollAnimation.observeElements`
(animation.js lines 136-158): skip elements already marked animated, skip
excluded elements, give survivors lacking every animation class the default
`fade-in-up`, and queue them for observation. -/
def processElement (st : SA) (pend : List Nat) (i : Nat) : SA × List Nat :=
  match st.doc[i]? with
  | none => (st, pend)
  | some e =>
    if e.dataAnimated == some "true" then (st, pend)
    else if isElementExcluded st.doc e then (st, pend)
    else
      let e' := if animationClasses.any (fun c => e.classes.contains c) then e
                else { e with classes := classAdd "fade-in-up" e.classes }
      ({ st with doc := st.doc.set i e' }, pend ++ [i])

/-- Run the per-element loop over one selector's query results. -/
def procElems : List Nat → SA × List Nat → SA × List Nat
  | [], acc => acc
  | i :: rest, acc => procElems rest (processElement acc.1 acc.2 i)

/-- Run the scan over a list of selectors, threading the document (the
`fade-in-up` additions of earlier selectors are visible to later queries,
as in the source). -/
def scanSelectors : List String → SA × List Nat → SA × List Nat
  | [], acc => acc
  | sel :: rest, acc => scanSelectors rest (procElems (querySelectorAll sel acc.1.doc) acc)

/-- `ScrollAnimation.observeElements` (animation.js lines 129-165):
collect the elements to animate, then batch-observe them. -/
def observeElements (st : SA) : SA :=
  let r := scanSelectors targetElements (st, [])
  { r.1 with observed := observeAddAll r.2 r.1.observed }

/-- `ScrollAnimation.handleIntersection` (animation.js lines 106-124):
for every intersecting entry, schedule (via `requestAnimationFrame`) the
activation of its target.  Nothing is mutated and nothing is unobserved
synchronously; the callback only appends to the animation-frame queue. -/
def handleIntersection (entries : List (Nat × Bool)) (st : SA) : SA :=
  entries.foldl
    (fun s p => if p.2 then { s with raf := s.raf ++ [p.1] } else s) st

/-- Body of the `requestAnimationFrame` callback scheduled by
`handleIntersection` (animation.js lines 112-121): add the `active` class,
unobserve the element, set `data-animated="true"`.  Appends to the ghost
activation log. -/
def activateElem (st : SA) (i : Nat) : SA :=
  match st.doc[i]? with
  | none => st
  | some e =>
    { st with
      doc := st.doc.set i
        { e with classes := classAdd "active" e.classes, dataAnimated := some "true" },
      observed := st.observed.filter (fun j => j ≠ i),
      acts := st.acts ++ [i] }

/-- Run a list of pending animation-frame callbacks in order. -/
def runRaf : List Nat → SA → SA
  | [], st => st
  | i :: rest, st => runRaf rest (activateElem st i)

/-- An animation-frame flush: every pending callback runs, in order. -/
def rafFlush (st : SA) : SA :=
  runRaf st.raf { st with raf := [] }

/-- Delivery of one batch of intersection notifications: every currently
observed element is reported with its current visibility, and
`handleIntersection` processes the batch. -/
def notify (vis : Nat → Bool) (st : SA) : SA :=
  handleIntersection (st.observed.map (fun i => (i, vis i))) st

/-- One step of the host browser:
  * `vis f` is a rendering frame — pending animation-frame callbacks run
    first, then the intersection notifications computed for this frame are
    delivered (this ordering is the browser's: callbacks queued by
    `requestAnimationFrame` run during the rendering update that precedes
    the next delivery of intersection records);
  * `rescan` is any of the re-scan triggers (debounced resize, the mutation
    observer, the visibility-change handler) — each simply re-runs
    `observeElements`. -/
inductive Frame where
  | vis (f : Nat → Bool)
  | rescan

/-- Execute one browser step. -/
def stepF : Frame → SA → SA
  | .vis f, st => notify f (rafFlush st)
  | .rescan, st => observeElements st

/-- Execute a sequence of browser steps. -/
def runF : List Frame → SA → SA
  | [], st => st
  | fr :: rest, st => runF rest (stepF fr st)

/-- Body of the per-element loop of `ScrollAnimation.fallbackAnimation`
(animation.js lines 264-268): elements without `active` get
`classList.add('fade-in-up', 'active')`. -/
def fallbackStep (st : SA) (i : Nat) : SA :=
  match st.doc[i]? with
  | none => st
  | some e =>
    if e.classes.contains "active" then st
    else
      let e' := { e with classes := classAdd "active" (classAdd "fade-in-up" e.classes) }
      { st with doc := st.doc.set i e' }

/-- Per-selector loop of the fallback. -/
def fbElems : List Nat → SA → SA
  | [], st => st
  | i :: rest, st => fbElems rest (fallbackStep st i)

/-- Selector loop of the fallback. -/
def fbSels : List String → SA → SA
  | [], st => st
  | sel :: rest, st => fbSels rest (fbElems (querySelectorAll sel st.doc) st)

/-- Milliseconds of the `setTimeout` delay in the fallback path. -/
def fallbackDelayMs : Nat := 100

/-- `ScrollAnimation.fallbackAnimation` (animation.js lines 257-271):
log a warning, then (after the fixed delay) add `fade-in-up` and `active`
to every element matching an inclusion selector that lacks `active`. -/
def fallbackAnimation (st : SA) : SA :=
  fbSels targetElements { st with warnings := st.warnings + 1 }

/-- `ScrollAnimation.init` (animation.js lines 79-100): with
`IntersectionObserver` available, create the observer and scan; otherwise
run the fallback (and observe nothing). -/
def init (supported : Bool) (st : SA) : SA :=
  if supported then observeElements st else fallbackAnimation st

/-- A fresh page state: the given document, nothing observed, nothing
scheduled, nothing logged. -/
def mkSA (d : Doc) : SA :=
  ⟨d, [], [], [], 0⟩

/-- Body of the per-element loop of `ScrollAnimation.triggerAnimation`
(animation.js lines 282-287). -/
def triggerStep (st : SA) (i : Nat) : SA :=
  match st.doc[i]? with
  | none => st
  | some e =>
    if e.classes.contains "active" then st
    else
      let e' := { e with classes := classAdd "active" e.classes, dataAnimated := some "true" }
      { st with doc := st.doc.set i e' }

/-- Element loop of `triggerAnimation`. -/
def trigElems : List Nat → SA → SA
  | [], st => st
  | i :: rest, st => trigElems rest (triggerStep st i)

/-- `ScrollAnimation.triggerAnimation` (animation.js lines 277-288):
a string argument is a selector queried against the document, anything
else is treated as a single element. -/
def triggerAnimation : String ⊕ Nat → SA → SA
  | .inl sel, st => trigElems (querySelectorAll sel st.doc) st
  | .inr i, st => triggerStep st i

/-- Body of the per-element loop of `ScrollAnimation.resetAnimations`
(animation.js lines 296-299): remove `active`, remove `data-animated`. -/
def resetStep (st : SA) (i : Nat) : SA :=
  match st.doc[i]? with
  | none => st
  | some e =>
    let e' := { e with classes := classRemove "active" e.classes, dataAnimated := none }
    { st with doc := st.doc.set i e' }

/-- Element loop of `resetAnimations`. -/
def resetElems : List Nat → SA → SA
  | [], st => st
  | i :: rest, st => resetElems rest (resetStep st i)

/-- Selector loop of `resetAnimations`. -/
def resetSels : List String → SA → SA
  | [], st => st
  | sel :: rest, st => resetSels rest (resetElems (querySelectorAll sel st.doc) st)

/-- `ScrollAnimation.resetAnimations` (animation.js lines 293-304):
clear `active` and the marker on every element matching an inclusion
selector, then re-run the scan. -/
def resetAnimations (st : SA) : SA :=
  observeElements (resetSels targetElements st)

/-! ## The mobile-menu toggle (src/unnamed/part_000) -/

/-- Menu state: the navigation panel's class list and the `className` of
the icon inside the toggle control. -/
structure MenuState where
  navClasses : List String
  icon : String
  deriving Repr, DecidableEq

/-- Where a click lands, for dispatching the three click handlers:
inside the toggle control, on a navigation link (hence inside the panel),
elsewhere inside the panel, or outside both. -/
structure ClickTarget where
  inToggle : Bool
  inNavbar : Bool
  isNavLink : Bool
  deriving Repr, DecidableEq

/-- The toggle control's click handler (part_000 lines 7-17):
`navbar.classList.toggle('active')`, then the icon follows the *resulting*
class list. -/
def triggerHandler (s : MenuState) : MenuState :=
  let nav' := classToggle "active" s.navClasses
  { navClasses := nav',
    icon := if nav'.contains "active" then "ri-close-line" else "ri-menu-line" }

/-- The navigation-link click handler (part_000 lines 22-26). -/
def linkHandler (s : MenuState) : MenuState :=
  { navClasses := classRemove "active" s.navClasses, icon := "ri-menu-line" }

/-- The document-level click handler (part_000 lines 30-36): close the
panel unless the click landed inside the panel or inside the toggle. -/
def docHandler (t : ClickTarget) (s : MenuState) : MenuState :=
  if !t.inNavbar && !t.inToggle then
    { navClasses := classRemove "active" s.navClasses, icon := "ri-menu-line" }
  else s

/-- Dispatch of one click through the three installed handlers, in bubble
order: the element-level handlers fire first, the document-level handler
last. -/
def dispatchClick (t : ClickTarget) (s : MenuState) : MenuState :=
  let s1 := if t.inToggle then triggerHandler s else s
  let s2 := if t.isNavLink then linkHandler s1 else s1
  docHandler t s2

/-! ## Auxiliary predicates for the proofs -/

/-- The classes the scripts may add to or remove from class lists:
the default animation identifier and the activation class. -/
def touchedClasses : List String := ["fade-in-up", "active"]

/-- Two elements that agree on everything selector matching and exclusion
can see, except possibly on the classes the scripts themselves toggle. -/
def agreeOutside (e e' : Elem) : Prop :=
  e'.tag = e.tag ∧ e'.ancestors = e.ancestors ∧
    ∀ c, c ∉ touchedClasses → e'.classes.contains c = e.classes.contains c

/-- Entry-wise `agreeOutside` between two documents. -/
def DocAgree (d d' : Doc) : Prop :=
  d'.length = d.length ∧
    ∀ i : Nat, (∀ e, d[i]? = some e → ∃ e', d'[i]? = some e' ∧ agreeOutside e e') ∧
      (d[i]? = none → d'[i]? = none)

/-- A simple selector that does not test one of the classes the scripts
toggle (tag-name selectors trivially qualify). -/
def selClassOkB (s : List Char) : Bool :=
  match s with
  | '.' :: rest => decide (String.mk rest ∉ touchedClasses)
  | _ => true

/-- A selector (in the grammar of `cssMatches`) whose matching cannot
be changed by adding or removing the scripts' own classes. -/
def selOk (sel : String) : Bool :=
  match breakFirst ":not(".data sel.data with
  | some (a, b) => selClassOkB a && selClassOkB b.dropLast
  | none => selClassOkB sel.data

/-- The attribute view of one document entry. -/
def attrAt (d : Doc) (i : Nat) : Option (Option String) :=
  d[i]?.map (fun e => e.dataAnimated)

/-- The element update performed by the scan on a surviving element:
give it the default animation identifier unless it already carries one
(animation.js lines 147-155). -/
def addDefault (e : Elem) : Elem :=
  if animationClasses.any (fun c => e.classes.contains c) then e
  else { e with classes := classAdd "fade-in-up" e.classes }

/-- The element update performed by one activation (the body of the
scheduled animation-frame callback). -/
def actUpd (e : Elem) : Elem :=
  { e with classes := classAdd "active" e.classes, dataAnimated := some "true" }

/-- The safety invariant of the intersection/animation-frame machinery:
the observed set is duplicate-free and in-range, every pending
animation-frame callback targets an observed element, each element is
activated at most once over the whole history, and an activated element is
no longer observed and carries the activation class and marker. -/
def SAInv (st : SA) : Prop :=
  st.observed.Nodup ∧
  ∀ i : Nat, st.acts.count i + st.raf.count i ≤ 1 ∧
    (i ∈ st.raf → i ∈ st.observed) ∧
    (i ∈ st.observed → i < st.doc.length) ∧
    (1 ≤ st.acts.count i →
      i ∉ st.observed ∧ attrTrue st.doc i = true ∧ hasActive st.doc i = true)

/-! ## Class-list lemmas -/

theorem contains_iff_mem (l : List String) (c : String) : l.contains c = true ↔ c ∈ l :=
  List.elem_iff

theorem contains_eq_decide (l : List String) (c : String) :
    l.contains c = decide (c ∈ l) :=
  List.elem_eq_mem c l

theorem classAdd_contains_self (c : String) (l : List String) :
    (classAdd c l).contains c = true := by
  unfold classAdd
  split
  · assumption
  · simp [contains_eq_decide]

theorem classAdd_contains_ne (c d : String) (l : List String) (h : d ≠ c) :
    (classAdd c l).contains d = l.contains d := by
  unfold classAdd
  split
  · rfl
  · simp [contains_eq_decide, h]

theorem classAdd_contains_mono (c d : String) (l : List String) (h : l.contains d = true) :
    (classAdd c l).contains d = true := by
  by_cases hdc : d = c
  · rw [hdc]; exact classAdd_contains_self c l
  · rw [classAdd_contains_ne c d l hdc]; exact h

theorem classRemove_contains_ne (c d : String) (l : List String) (h : d ≠ c) :
    (classRemove c l).contains d = l.contains d := by
  unfold classRemove
  simp [contains_eq_decide, List.mem_filter, h]

theorem classRemove_contains_self (c : String) (l : List String) :
    (classRemove c l).contains c = false := by
  unfold classRemove
  simp [contains_eq_decide, List.mem_filter]

theorem classToggle_contains_self (c : String) (l : List String) :
    (classToggle c l).contains c = (!l.contains c) := by
  unfold classToggle
  rcases hc : l.contains c with _ | _
  · simp only [hc, if_false, Bool.not_false]
    simp [contains_eq_decide]
  · simp only [hc, if_true, Bool.not_true]
    exact classRemove_contains_self c l

/-! ## `querySelectorAll` membership -/

theorem mem_querySelectorAll (sel : String) (d : Doc) (i : Nat) :
    i ∈ querySelectorAll sel d ↔ ∃ e, d[i]? = some e ∧ cssMatches sel e = true := by
  unfold querySelectorAll
  rw [List.mem_filter]
  constructor
  · rintro ⟨hr, hm⟩
    rcases hd : d[i]? with _ | e
    · rw [hd] at hm; exact absurd hm (by simp)
    · rw [hd] at hm; exact ⟨e, rfl, hm⟩
  · rintro ⟨e, he, hm⟩
    have hlen : i < d.length := (List.getElem?_eq_some.mp he).1
    refine ⟨List.mem_range.mpr hlen, ?_⟩
    rw [he]; exact hm

theorem querySelectorAll_valid (sel : String) (d : Doc) (i : Nat)
    (h : i ∈ querySelectorAll sel d) : i < d.length := by
  rcases (mem_querySelectorAll sel d i).mp h with ⟨e, he, _⟩
  exact (List.getElem?_eq_some.mp he).1

/-! ## Congruence of matching and exclusion -/

theorem anyCongr {α : Type} {f g : α → Bool} {l : List α}
    (h : ∀ a ∈ l, f a = g a) : l.any f = l.any g := by
  induction l with
  | nil => rfl
  | cons x xs ih =>
    simp only [List.any_cons, h x (List.mem_cons_self x xs),
      ih (fun a ha => h a (List.mem_cons_of_mem x ha))]

theorem agreeOutside_refl (e : Elem) : agreeOutside e e :=
  ⟨rfl, rfl, fun _ _ => rfl⟩

theorem agreeOutside_trans {a b c : Elem} (h1 : agreeOutside a b) (h2 : agreeOutside b c) :
    agreeOutside a c :=
  ⟨h2.1.trans h1.1, h2.2.1.trans h1.2.1,
   fun s hs => (h2.2.2 s hs).trans (h1.2.2 s hs)⟩

theorem DocAgree_refl (d : Doc) : DocAgree d d :=
  ⟨rfl, fun _ => ⟨fun e he => ⟨e, he, agreeOutside_refl e⟩, fun h => h⟩⟩

theorem DocAgree_trans {a b c : Doc} (h1 : DocAgree a b) (h2 : DocAgree b c) :
    DocAgree a c := by
  refine ⟨h2.1.trans h1.1, fun i => ⟨?_, ?_⟩⟩
  · intro e he
    rcases (h1.2 i).1 e he with ⟨e', he', hag⟩
    rcases (h2.2 i).1 e' he' with ⟨e'', he'', hag'⟩
    exact ⟨e'', he'', agreeOutside_trans hag hag'⟩
  · intro hn
    exact (h2.2 i).2 ((h1.2 i).2 hn)

theorem simpleMatchC_congr (s : List Char) (e e' : Elem)
    (hok : selClassOkB s = true) (hag : agreeOutside e e') :
    simpleMatchC s e' = simpleMatchC s e := by
  unfold simpleMatchC
  unfold selClassOkB at hok
  split
  · rename_i rest
    exact hag.2.2 (String.mk rest) (by simpa using hok)
  · rw [hag.1]

theorem cssMatches_congr (sel : String) (e e' : Elem)
    (hok : selOk sel = true) (hag : agreeOutside e e') :
    cssMatches sel e' = cssMatches sel e := by
  unfold cssMatches
  unfold selOk at hok
  rcases hb : breakFirst ":not(".data sel.data with _ | ⟨a, b⟩
  · rw [hb] at hok
    simp only
    exact simpleMatchC_congr _ _ _ hok hag
  · rw [hb] at hok
    simp only [Bool.and_eq_true] at hok
    simp only
    rw [simpleMatchC_congr a e e' hok.1 hag, simpleMatchC_congr b.dropLast e e' hok.2 hag]

/-- Every inclusion selector is insensitive to the classes the scripts
themselves toggle. -/
theorem targets_selOk : ∀ sel ∈ targetElements, selOk sel = true := by decide

theorem cssMatches_target_congr (sel : String) (hsel : sel ∈ targetElements)
    (e e' : Elem) (hag : agreeOutside e e') :
    cssMatches sel e' = cssMatches sel e :=
  cssMatches_congr sel e e' (targets_selOk sel hsel) hag

theorem elemClosest_congr (d d' : Doc) (e e' : Elem) (base : String)
    (hok : selOk base = true) (hd : DocAgree d d') (hag : agreeOutside e e') :
    elemClosest d' e' base = elemClosest d e base := by
  unfold elemClosest
  rw [cssMatches_congr base e e' hok hag, hag.2.1]
  have : ∀ a : Nat,
      (match d'[a]? with
       | some ae => cssMatches base ae
       | none => false) =
      (match d[a]? with
       | some ae => cssMatches base ae
       | none => false) := by
    intro a
    rcases ha : d[a]? with _ | ae
    · rw [(hd.2 a).2 ha]
    · rcases (hd.2 a).1 ae ha with ⟨ae', ha', hagA⟩
      rw [ha']
      exact cssMatches_congr base ae ae' hok hagA
  rw [anyCongr (fun a _ => this a)]

/-- Side conditions making one exclusion selector insensitive to the
scripts' own class changes. -/
def exclSelOk (selector : String) : Bool :=
  if selector.data.contains '*' then selOk (stripWildcard selector)
  else
    match selector.data with
    | '.' :: rest => decide (String.mk rest ∉ touchedClasses)
    | _ => true

theorem excluded_selOk : ∀ sel ∈ excludedElements, exclSelOk sel = true := by decide

theorem isElementExcluded_congr (d d' : Doc) (e e' : Elem)
    (hd : DocAgree d d') (hag : agreeOutside e e') :
    isElementExcluded d' e' = isElementExcluded d e := by
  unfold isElementExcluded
  refine anyCongr (fun selector hsel => ?_)
  have hok := excluded_selOk selector hsel
  unfold exclSelOk at hok
  rcases hstar : selector.data.contains '*' with _ | _
  · rw [hstar] at hok
    simp only [hstar, Bool.false_eq_true, if_false]
    split
    · rename_i rest heq
      simp only [heq, Bool.false_eq_true, if_false] at hok
      exact hag.2.2 (String.mk rest) (by simpa using hok)
    · rw [hag.1]
  · rw [hstar] at hok
    simp only [hstar, if_true]
    exact elemClosest_congr d d' e e' (stripWildcard selector) (by simpa using hok) hd hag

/-! ## The scan: element-level lemmas -/

theorem addDefault_dataAnimated (e : Elem) : (addDefault e).dataAnimated = e.dataAnimated := by
  unfold addDefault
  split <;> rfl

theorem addDefault_agree (e : Elem) : agreeOutside e (addDefault e) := by
  unfold addDefault
  split
  · exact agreeOutside_refl e
  · refine ⟨rfl, rfl, fun c hc => ?_⟩
    have hne : c ≠ "fade-in-up" := by
      intro hh; exact hc (by simp [touchedClasses, hh])
    exact classAdd_contains_ne _ c _ hne

theorem addDefault_active (e : Elem) :
    (addDefault e).classes.contains "active" = e.classes.contains "active" := by
  unfold addDefault
  split
  · rfl
  · exact classAdd_contains_ne _ _ _ (by decide)

theorem addDefault_anim (e : Elem) :
    animationClasses.any (fun c => (addDefault e).classes.contains c) = true := by
  unfold addDefault
  split
  · assumption
  · refine List.any_eq_true.mpr ⟨"fade-in-up", by simp [animationClasses], ?_⟩
    exact classAdd_contains_self _ _

theorem addDefault_idem (e : Elem) : addDefault (addDefault e) = addDefault e := by
  have h := addDefault_anim e
  conv_lhs => rw [addDefault]
  rw [if_pos h]

theorem processElement_shape (st : SA) (p : List Nat) (i : Nat) :
    ((st.doc[i]? = none ∨ attrTrue st.doc i = true ∨
        (∃ e, st.doc[i]? = some e ∧ isElementExcluded st.doc e = true)) ∧
      processElement st p i = (st, p)) ∨
    (∃ e, st.doc[i]? = some e ∧ attrTrue st.doc i = false ∧
      isElementExcluded st.doc e = false ∧
      processElement st p i =
        ({ st with doc := st.doc.set i (addDefault e) }, p ++ [i])) := by
  rcases h : st.doc[i]? with _ | e
  · left
    refine ⟨Or.inl rfl, ?_⟩
    simp [processElement, h]
  · by_cases hm : e.dataAnimated = some "true"
    · left
      refine ⟨Or.inr (Or.inl (by simp [attrTrue, h, hm])), ?_⟩
      simp [processElement, h, hm]
    · by_cases hx : isElementExcluded st.doc e = true
      · left
        refine ⟨Or.inr (Or.inr ⟨e, rfl, hx⟩), ?_⟩
        simp [processElement, h, hm, hx]
      · right
        refine ⟨e, rfl, by simp [attrTrue, h, hm], by simpa using hx, ?_⟩
        simp [processElement, h, hm, hx, addDefault]

/-! ## The scan: loop-level lemmas -/

theorem procElems_nil (acc : SA × List Nat) : procElems [] acc = acc := rfl

theorem procElems_cons (i : Nat) (rest : List Nat) (st : SA) (p : List Nat) :
    procElems (i :: rest) (st, p) = procElems rest (processElement st p i) := rfl

theorem scanSelectors_nil (acc : SA × List Nat) : scanSelectors [] acc = acc := rfl

theorem scanSelectors_cons (sel : String) (rest : List String) (st : SA) (p : List Nat) :
    scanSelectors (sel :: rest) (st, p) =
      scanSelectors rest (procElems (querySelectorAll sel st.doc) (st, p)) := rfl

theorem attrTrue_congr (d d' : Doc) (j : Nat) (h : attrAt d j = attrAt d' j) :
    attrTrue d j = attrTrue d' j := by
  unfold attrTrue
  unfold attrAt at h
  rcases hd : d[j]? with _ | e <;> rcases hd' : d'[j]? with _ | e' <;>
    rw [hd, hd'] at h <;> simp_all

theorem hasActive_congr (d d' : Doc) (j : Nat)
    (h : ∀ k, hasActive d k = hasActive d' k) : hasActive d j = hasActive d' j :=
  h j

theorem set_attrAt (d : Doc) (i : Nat) (e e' : Elem) (he : d[i]? = some e)
    (hattr : e'.dataAnimated = e.dataAnimated) (j : Nat) :
    attrAt (d.set i e') j = attrAt d j := by
  unfold attrAt
  by_cases hj : j = i
  · subst hj
    rw [List.getElem?_set_self (List.getElem?_eq_some.mp he).1, he]
    simp [hattr]
  · rw [List.getElem?_set_ne (fun hh => hj hh.symm)]

theorem set_hasActive (d : Doc) (i : Nat) (e e' : Elem) (he : d[i]? = some e)
    (hact : e'.classes.contains "active" = e.classes.contains "active") (j : Nat) :
    hasActive (d.set i e') j = hasActive d j := by
  unfold hasActive
  by_cases hj : j = i
  · subst hj
    rw [List.getElem?_set_self (List.getElem?_eq_some.mp he).1, he]
    exact hact
  · rw [List.getElem?_set_ne (fun hh => hj hh.symm)]

theorem set_agree (d : Doc) (i : Nat) (e e' : Elem) (he : d[i]? = some e)
    (hag : agreeOutside e e') : DocAgree d (d.set i e') := by
  refine ⟨List.length_set d i e', fun j => ⟨?_, ?_⟩⟩
  · intro f hf
    by_cases hj : j = i
    · subst hj
      refine ⟨e', ?_, ?_⟩
      · rw [List.getElem?_set_self (List.getElem?_eq_some.mp he).1]
      · rw [he] at hf
        cases hf
        exact hag
    · exact ⟨f, by rw [List.getElem?_set_ne (fun hh => hj hh.symm)]; exact hf,
        agreeOutside_refl f⟩
  · intro hn
    by_cases hj : j = i
    · subst hj
      rw [he] at hn
      cases hn
    · rw [List.getElem?_set_ne (fun hh => hj hh.symm)]
      exact hn

theorem procElems_state (L : List Nat) (st : SA) (p : List Nat) :
    (procElems L (st, p)).1.observed = st.observed ∧
    (procElems L (st, p)).1.raf = st.raf ∧
    (procElems L (st, p)).1.acts = st.acts ∧
    (procElems L (st, p)).1.warnings = st.warnings ∧
    (procElems L (st, p)).1.doc.length = st.doc.length ∧
    (∀ j, attrAt (procElems L (st, p)).1.doc j = attrAt st.doc j) ∧
    (∀ j, hasActive (procElems L (st, p)).1.doc j = hasActive st.doc j) ∧
    DocAgree st.doc (procElems L (st, p)).1.doc := by
  induction L generalizing st p with
  | nil => exact ⟨rfl, rfl, rfl, rfl, rfl, fun _ => rfl, fun _ => rfl, DocAgree_refl _⟩
  | cons i rest ih =>
    rw [procElems_cons]
    rcases processElement_shape st p i with ⟨_, heq⟩ | ⟨e, he, _, _, heq⟩
    · rw [heq]
      exact ih st p
    · rw [heq]
      obtain ⟨o1, r1, a1, w1, l1, at1, ha1, ag1⟩ :=
        ih { st with doc := st.doc.set i (addDefault e) } (p ++ [i])
      refine ⟨o1, r1, a1, w1, ?_, ?_, ?_, ?_⟩
      · rw [l1]; exact List.length_set st.doc i (addDefault e)
      · intro j
        rw [at1 j]
        exact set_attrAt st.doc i e (addDefault e) he (addDefault_dataAnimated e) j
      · intro j
        rw [ha1 j]
        exact set_hasActive st.doc i e (addDefault e) he (addDefault_active e) j
      · exact DocAgree_trans (set_agree st.doc i e (addDefault e) he (addDefault_agree e)) ag1

theorem procElems_pend (L : List Nat) (st : SA) (p : List Nat) :
    ∃ extra, (procElems L (st, p)).2 = p ++ extra ∧
      ∀ j ∈ extra, j ∈ L ∧ attrTrue st.doc j = false ∧ j < st.doc.length := by
  induction L generalizing st p with
  | nil => exact ⟨[], by simp [procElems_nil], by simp⟩
  | cons i rest ih =>
    rw [procElems_cons]
    rcases processElement_shape st p i with ⟨_, heq⟩ | ⟨e, he, hattr, _, heq⟩
    · rw [heq]
      rcases ih st p with ⟨extra, hpe, hcond⟩
      exact ⟨extra, hpe, fun j hj =>
        ⟨List.mem_cons_of_mem i (hcond j hj).1, (hcond j hj).2.1, (hcond j hj).2.2⟩⟩
    · rw [heq]
      have hst' := procElems_state rest { st with doc := st.doc.set i (addDefault e) } (p ++ [i])
      rcases ih { st with doc := st.doc.set i (addDefault e) } (p ++ [i]) with ⟨extra, hpe, hcond⟩
      refine ⟨i :: extra, by rw [hpe]; simp, fun j hj => ?_⟩
      rcases List.mem_cons.mp hj with hji | hje
      · refine ⟨?_, ?_, ?_⟩ <;> rw [hji]
        · exact List.mem_cons_self i rest
        · exact hattr
        · exact (List.getElem?_eq_some.mp he).1
      · obtain ⟨hjr, hja, hjl⟩ := hcond j hje
        refine ⟨List.mem_cons_of_mem i hjr, ?_, ?_⟩
        · rw [← hja]
          exact (attrTrue_congr _ _ j
            (set_attrAt st.doc i e (addDefault e) he (addDefault_dataAnimated e) j)).symm
        · simpa [List.length_set] using hjl

theorem procElems_excl_entry (L : List Nat) (st : SA) (p : List Nat) (d0 : Doc)
    (hd : DocAgree d0 st.doc) (j : Nat) (e0 : Elem)
    (h0 : d0[j]? = some e0) (hx : isElementExcluded d0 e0 = true) :
    (procElems L (st, p)).1.doc[j]? = st.doc[j]? ∧
      (j ∈ (procElems L (st, p)).2 → j ∈ p) := by
  induction L generalizing st p with
  | nil => exact ⟨rfl, fun h => h⟩
  | cons i rest ih =>
    rw [procElems_cons]
    rcases processElement_shape st p i with ⟨_, heq⟩ | ⟨e, he, _, hxe, heq⟩
    · rw [heq]
      exact ih st p hd
    · rw [heq]
      have hji : j ≠ i := by
        intro hh
        subst hh
        rcases (hd.2 j).1 e0 h0 with ⟨e', he', hag⟩
        rw [he] at he'
        cases he'
        rw [isElementExcluded_congr d0 st.doc e0 e hd hag] at hxe
        rw [hx] at hxe
        cases hxe
      have hset : (st.doc.set i (addDefault e))[j]? = st.doc[j]? :=
        List.getElem?_set_ne (fun hh => hji hh.symm)
      have hd' : DocAgree d0 (st.doc.set i (addDefault e)) :=
        DocAgree_trans hd (set_agree st.doc i e (addDefault e) he (addDefault_agree e))
      obtain ⟨hdoc, hpend⟩ := ih { st with doc := st.doc.set i (addDefault e) } (p ++ [i]) hd'
      refine ⟨hdoc.trans hset, fun hmem => ?_⟩
      rcases List.mem_append.mp (hpend hmem) with hp | hi
      · exact hp
      · rw [List.mem_singleton] at hi
        exact absurd hi hji

theorem procElems_compl (L : List Nat) (st : SA) (p : List Nat) (j : Nat) (hj : j ∈ L)
    (e : Elem) (he : st.doc[j]? = some e)
    (hattr : attrTrue st.doc j = false) (hx : isElementExcluded st.doc e = false) :
    j ∈ (procElems L (st, p)).2 := by
  induction hj generalizing st p e with
  | head as =>
    rw [procElems_cons]
    rcases processElement_shape st p j with ⟨hskip, heq⟩ | ⟨e', he', _, _, heq⟩
    · exfalso
      rcases hskip with hn | ha | ⟨e'', he'', hx''⟩
      · rw [he] at hn; cases hn
      · rw [hattr] at ha; cases ha
      · rw [he] at he''
        cases he''
        rw [hx''] at hx
        cases hx
    · rw [heq]
      rcases procElems_pend as { st with doc := st.doc.set j (addDefault e') } (p ++ [j])
        with ⟨extra, hpe, _⟩
      rw [hpe]
      simp
  | tail b hmem ih =>
    rw [procElems_cons]
    rcases processElement_shape st p b with ⟨_, heq⟩ | ⟨e1, he1, _, _, heq⟩
    · rw [heq]
      exact ih st p e he hattr hx
    · rw [heq]
      by_cases hjb : j = b
      · -- the head already queued j
        subst hjb
        rcases procElems_pend _ { st with doc := st.doc.set j (addDefault e1) } (p ++ [j])
          with ⟨extra, hpe, _⟩
        rw [hpe]
        simp
      · have hset : (st.doc.set b (addDefault e1))[j]? = st.doc[j]? :=
          List.getElem?_set_ne (fun hh => hjb hh.symm)
        have hagd : DocAgree st.doc (st.doc.set b (addDefault e1)) :=
          set_agree st.doc b e1 (addDefault e1) he1 (addDefault_agree e1)
        have he' : (st.doc.set b (addDefault e1))[j]? = some e := hset.trans he
        have hattr' :
            attrTrue { st with doc := st.doc.set b (addDefault e1) }.doc j = false := by
          rw [attrTrue_congr _ st.doc j
            (set_attrAt st.doc b e1 (addDefault e1) he1 (addDefault_dataAnimated e1) j)]
          exact hattr
        have hx' : isElementExcluded (st.doc.set b (addDefault e1)) e = false := by
          rw [isElementExcluded_congr st.doc _ e e hagd (agreeOutside_refl e)]
          exact hx
        exact ih { st with doc := st.doc.set b (addDefault e1) } (p ++ [b]) e he' hattr' hx'

theorem scanSelectors_state (sels : List String) (st : SA) (p : List Nat) :
    (scanSelectors sels (st, p)).1.observed = st.observed ∧
    (scanSelectors sels (st, p)).1.raf = st.raf ∧
    (scanSelectors sels (st, p)).1.acts = st.acts ∧
    (scanSelectors sels (st, p)).1.warnings = st.warnings ∧
    (scanSelectors sels (st, p)).1.doc.length = st.doc.length ∧
    (∀ j, attrAt (scanSelectors sels (st, p)).1.doc j = attrAt st.doc j) ∧
    (∀ j, hasActive (scanSelectors sels (st, p)).1.doc j = hasActive st.doc j) ∧
    DocAgree st.doc (scanSelectors sels (st, p)).1.doc := by
  induction sels generalizing st p with
  | nil => exact ⟨rfl, rfl, rfl, rfl, rfl, fun _ => rfl, fun _ => rfl, DocAgree_refl _⟩
  | cons sel rest ih =>
    rw [scanSelectors_cons]
    obtain ⟨o1, r1, a1, w1, l1, at1, ha1, ag1⟩ :=
      procElems_state (querySelectorAll sel st.doc) st p
    rcases hpr : procElems (querySelectorAll sel st.doc) (st, p) with ⟨st1, p1⟩
    rw [hpr] at o1 r1 a1 w1 l1 at1 ha1 ag1
    obtain ⟨o2, r2, a2, w2, l2, at2, ha2, ag2⟩ := ih st1 p1
    exact ⟨o2.trans o1, r2.trans r1, a2.trans a1, w2.trans w1, l2.trans l1,
      fun j => (at2 j).trans (at1 j), fun j => (ha2 j).trans (ha1 j),
      DocAgree_trans ag1 ag2⟩

theorem scanSelectors_pend (sels : List String) (st : SA) (p : List Nat) :
    ∃ extra, (scanSelectors sels (st, p)).2 = p ++ extra ∧
      ∀ j ∈ extra, attrTrue st.doc j = false ∧ j < st.doc.length := by
  induction sels generalizing st p with
  | nil => exact ⟨[], by simp [scanSelectors_nil], by simp⟩
  | cons sel rest ih =>
    rw [scanSelectors_cons]
    obtain ⟨_, _, _, _, l1, at1, _, _⟩ := procElems_state (querySelectorAll sel st.doc) st p
    rcases procElems_pend (querySelectorAll sel st.doc) st p with ⟨e1, hp1, hc1⟩
    rcases hpr : procElems (querySelectorAll sel st.doc) (st, p) with ⟨st1, p1⟩
    rw [hpr] at l1 at1 hp1
    rcases ih st1 p1 with ⟨e2, hp2, hc2⟩
    have hp1' : p1 = p ++ e1 := hp1
    refine ⟨e1 ++ e2, by rw [hp2, hp1', List.append_assoc], fun j hj => ?_⟩
    rcases List.mem_append.mp hj with h1 | h2
    · exact ⟨(hc1 j h1).2.1, (hc1 j h1).2.2⟩
    · obtain ⟨ha2, hl2⟩ := hc2 j h2
      refine ⟨?_, by rw [← l1]; exact hl2⟩
      rw [← ha2]
      exact (attrTrue_congr _ _ j (at1 j)).symm

theorem scanSelectors_excl_entry (sels : List String) (st : SA) (p : List Nat) (d0 : Doc)
    (hd : DocAgree d0 st.doc) (j : Nat) (e0 : Elem)
    (h0 : d0[j]? = some e0) (hx : isElementExcluded d0 e0 = true) :
    (scanSelectors sels (st, p)).1.doc[j]? = st.doc[j]? ∧
      (j ∈ (scanSelectors sels (st, p)).2 → j ∈ p) := by
  induction sels generalizing st p with
  | nil => exact ⟨rfl, fun h => h⟩
  | cons sel rest ih =>
    rw [scanSelectors_cons]
    obtain ⟨hdoc1, hpend1⟩ :=
      procElems_excl_entry (querySelectorAll sel st.doc) st p d0 hd j e0 h0 hx
    obtain ⟨_, _, _, _, _, _, _, ag1⟩ := procElems_state (querySelectorAll sel st.doc) st p
    rcases hpr : procElems (querySelectorAll sel st.doc) (st, p) with ⟨st1, p1⟩
    rw [hpr] at hdoc1 hpend1 ag1
    obtain ⟨hdoc2, hpend2⟩ := ih st1 p1 (DocAgree_trans hd ag1)
    exact ⟨hdoc2.trans hdoc1, fun hmem => hpend1 (hpend2 hmem)⟩

theorem scanSelectors_compl (sels : List String) (st : SA) (p : List Nat) (sel : String)
    (hsel : sel ∈ sels) (hok : selOk sel = true) (j : Nat) (e : Elem)
    (he : st.doc[j]? = some e) (hm : cssMatches sel e = true)
    (hattr : attrTrue st.doc j = false) (hx : isElementExcluded st.doc e = false) :
    j ∈ (scanSelectors sels (st, p)).2 := by
  induction hsel generalizing st p e with
  | head as =>
    rw [scanSelectors_cons]
    have hq : j ∈ querySelectorAll sel st.doc := (mem_querySelectorAll sel st.doc j).mpr ⟨e, he, hm⟩
    have hp1 : j ∈ (procElems (querySelectorAll sel st.doc) (st, p)).2 :=
      procElems_compl (querySelectorAll sel st.doc) st p j hq e he hattr hx
    rcases hpr : procElems (querySelectorAll sel st.doc) (st, p) with ⟨st1, p1⟩
    rw [hpr] at hp1
    rcases scanSelectors_pend as st1 p1 with ⟨extra, hpe, _⟩
    rw [hpe]
    exact List.mem_append.mpr (Or.inl hp1)
  | tail b hmem ih =>
    rw [scanSelectors_cons]
    obtain ⟨_, _, _, _, _, at1, _, ag1⟩ := procElems_state (querySelectorAll b st.doc) st p
    rcases hpr : procElems (querySelectorAll b st.doc) (st, p) with ⟨st1, p1⟩
    rw [hpr] at at1 ag1
    rcases (ag1.2 j).1 e he with ⟨e', he', hag⟩
    have hm' : cssMatches sel e' = true := by
      rw [cssMatches_congr sel e e' hok hag]
      exact hm
    have hattr' : attrTrue st1.doc j = false := by
      rw [attrTrue_congr _ _ j (at1 j)]
      exact hattr
    have hx' : isElementExcluded st1.doc e' = false := by
      rw [isElementExcluded_congr st.doc st1.doc e e' ag1 hag]
      exact hx
    exact ih st1 p1 e' he' hm' hattr' hx'

/-! ## Observation bookkeeping -/

theorem mem_observeAddAll (L obs : List Nat) (j : Nat) :
    j ∈ observeAddAll L obs ↔ j ∈ obs ∨ j ∈ L := by
  induction L generalizing obs with
  | nil => simp [observeAddAll]
  | cons i rest ih =>
    show j ∈ observeAddAll rest (observeAdd i obs) ↔ _
    rw [ih]
    have hmem : j ∈ observeAdd i obs ↔ j ∈ obs ∨ j = i := by
      unfold observeAdd
      split
      · rename_i hc
        have hio : i ∈ obs := List.elem_iff.mp hc
        constructor
        · exact Or.inl
        · rintro (h | h)
          · exact h
          · rw [h]; exact hio
      · simp [List.mem_append]
    rw [hmem]
    constructor
    · rintro ((h | h) | h)
      · exact Or.inl h
      · rw [h]; exact Or.inr (List.mem_cons_self i rest)
      · exact Or.inr (List.mem_cons_of_mem i h)
    · rintro (h | h)
      · exact Or.inl (Or.inl h)
      · rcases List.mem_cons.mp h with h | h
        · exact Or.inl (Or.inr h)
        · exact Or.inr h

theorem nodup_observeAddAll (L obs : List Nat) (h : obs.Nodup) :
    (observeAddAll L obs).Nodup := by
  induction L generalizing obs with
  | nil => exact h
  | cons i rest ih =>
    show (observeAddAll rest (observeAdd i obs)).Nodup
    refine ih (observeAdd i obs) ?_
    unfold observeAdd
    split
    · exact h
    · rename_i hc
      refine List.Nodup.append h (List.nodup_singleton i) ?_
      intro a ha hb
      rw [List.mem_singleton] at hb
      rw [hb] at ha
      exact hc (List.elem_iff.mpr ha)

theorem observeAddAll_absorb (L obs : List Nat) (h : ∀ j ∈ L, j ∈ obs) :
    observeAddAll L obs = obs := by
  induction L with
  | nil => rfl
  | cons i rest ih =>
    show observeAddAll rest (observeAdd i obs) = obs
    have hi : observeAdd i obs = obs := by
      unfold observeAdd
      rw [if_pos (List.elem_iff.mpr (h i (List.mem_cons_self i rest)))]
    rw [hi]
    exact ih (fun j hj => h j (List.mem_cons_of_mem i hj))

/-! ## `observeElements`: assembled properties -/

attribute [irreducible] scanSelectors fbSels resetSels

theorem observeElements_def (st : SA) :
    observeElements st =
      { (scanSelectors targetElements (st, [])).1 with
        observed := observeAddAll (scanSelectors targetElements (st, [])).2
          (scanSelectors targetElements (st, [])).1.observed } := rfl

theorem observeElements_raf (st : SA) : (observeElements st).raf = st.raf := by
  rw [observeElements_def]
  exact (scanSelectors_state targetElements st []).2.1

theorem observeElements_acts (st : SA) : (observeElements st).acts = st.acts := by
  rw [observeElements_def]
  exact (scanSelectors_state targetElements st []).2.2.1

theorem observeElements_warnings (st : SA) : (observeElements st).warnings = st.warnings := by
  rw [observeElements_def]
  exact (scanSelectors_state targetElements st []).2.2.2.1

theorem observeElements_doc_length (st : SA) :
    (observeElements st).doc.length = st.doc.length := by
  rw [observeElements_def]
  exact (scanSelectors_state targetElements st []).2.2.2.2.1

theorem observeElements_attrAt (st : SA) (j : Nat) :
    attrAt (observeElements st).doc j = attrAt st.doc j := by
  rw [observeElements_def]
  exact (scanSelectors_state targetElements st []).2.2.2.2.2.1 j

theorem observeElements_hasActive (st : SA) (j : Nat) :
    hasActive (observeElements st).doc j = hasActive st.doc j := by
  rw [observeElements_def]
  exact (scanSelectors_state targetElements st []).2.2.2.2.2.2.1 j

theorem observeElements_agree (st : SA) : DocAgree st.doc (observeElements st).doc := by
  rw [observeElements_def]
  exact (scanSelectors_state targetElements st []).2.2.2.2.2.2.2

theorem observeElements_obs_sup (st : SA) (j : Nat) (h : j ∈ st.observed) :
    j ∈ (observeElements st).observed := by
  rw [observeElements_def]
  show j ∈ observeAddAll _ _
  rw [mem_observeAddAll]
  rw [(scanSelectors_state targetElements st []).1]
  exact Or.inl h

theorem observeElements_obs_new (st : SA) (j : Nat) (h : j ∈ (observeElements st).observed) :
    j ∈ st.observed ∨ (attrTrue st.doc j = false ∧ j < st.doc.length) := by
  rw [observeElements_def] at h
  replace h := (mem_observeAddAll _ _ j).mp h
  rw [(scanSelectors_state targetElements st []).1] at h
  rcases h with h | h
  · exact Or.inl h
  · rcases scanSelectors_pend targetElements st [] with ⟨extra, hpe, hcond⟩
    rw [hpe] at h
    simp only [List.nil_append] at h
    exact Or.inr (hcond j h)

theorem observeElements_marked (st : SA) (j : Nat) (h : attrTrue st.doc j = true) :
    j ∈ (observeElements st).observed ↔ j ∈ st.observed := by
  constructor
  · intro hm
    rcases observeElements_obs_new st j hm with hh | ⟨hh, _⟩
    · exact hh
    · rw [h] at hh; cases hh
  · exact observeElements_obs_sup st j

theorem observeElements_nodup (st : SA) (h : st.observed.Nodup) :
    (observeElements st).observed.Nodup := by
  rw [observeElements_def]
  show (observeAddAll _ _).Nodup
  rw [(scanSelectors_state targetElements st []).1]
  exact nodup_observeAddAll _ _ h

theorem observeElements_excluded (st : SA) (j : Nat) (e : Elem)
    (he : st.doc[j]? = some e) (hx : isElementExcluded st.doc e = true) :
    (observeElements st).doc[j]? = some e ∧
      ((j ∈ (observeElements st).observed) ↔ j ∈ st.observed) := by
  obtain ⟨hdoc, hpend⟩ :=
    scanSelectors_excl_entry targetElements st [] st.doc (DocAgree_refl st.doc) j e he hx
  constructor
  · rw [observeElements_def]
    show (scanSelectors targetElements (st, [])).1.doc[j]? = some e
    rw [hdoc]
    exact he
  · rw [observeElements_def]
    show j ∈ observeAddAll _ _ ↔ _
    rw [mem_observeAddAll, (scanSelectors_state targetElements st []).1]
    constructor
    · rintro (h | h)
      · exact h
      · cases hpend h
    · exact Or.inl

theorem observeElements_complete (st : SA) (sel : String) (hsel : sel ∈ targetElements)
    (j : Nat) (e : Elem) (he : st.doc[j]? = some e) (hm : cssMatches sel e = true)
    (hattr : attrTrue st.doc j = false) (hx : isElementExcluded st.doc e = false) :
    j ∈ (observeElements st).observed := by
  rw [observeElements_def]
  show j ∈ observeAddAll _ _
  rw [mem_observeAddAll]
  exact Or.inr (scanSelectors_compl targetElements st [] sel hsel
    (targets_selOk sel hsel) j e he hm hattr hx)

/-! ## Activation and the animation-frame flush -/

theorem runRaf_nil (st : SA) : runRaf [] st = st := rfl

theorem runRaf_cons (i : Nat) (rest : List Nat) (st : SA) :
    runRaf (i :: rest) st = runRaf rest (activateElem st i) := rfl

theorem activateElem_shape (st : SA) (i : Nat) :
    (st.doc[i]? = none ∧ activateElem st i = st) ∨
    (∃ e, st.doc[i]? = some e ∧ activateElem st i =
      { st with
        doc := st.doc.set i (actUpd e),
        observed := st.observed.filter (fun j => j ≠ i),
        acts := st.acts ++ [i] }) := by
  rcases h : st.doc[i]? with _ | e
  · left
    exact ⟨rfl, by simp [activateElem, h]⟩
  · right
    exact ⟨e, rfl, by simp [activateElem, h, actUpd]⟩

theorem actUpd_agree (e : Elem) : agreeOutside e (actUpd e) := by
  refine ⟨rfl, rfl, fun c hc => ?_⟩
  have hne : c ≠ "active" := by
    intro hh; exact hc (by simp [touchedClasses, hh])
  exact classAdd_contains_ne _ c _ hne

theorem getElem_some_of_lt (d : Doc) (i : Nat) (h : i < d.length) :
    ∃ e, d[i]? = some e :=
  ⟨d[i], List.getElem?_eq_getElem h⟩

theorem flush_master (r : List Nat) (s : SA)
    (hnd : s.observed.Nodup)
    (hcnt : ∀ i, s.acts.count i + r.count i ≤ 1)
    (hro : ∀ i, i ∈ r → i ∈ s.observed)
    (hvl : ∀ i, i ∈ s.observed → i < s.doc.length)
    (hact : ∀ i, 1 ≤ s.acts.count i →
      i ∉ s.observed ∧ attrTrue s.doc i = true ∧ hasActive s.doc i = true) :
    (runRaf r s).observed.Nodup ∧
    (runRaf r s).raf = s.raf ∧
    (runRaf r s).warnings = s.warnings ∧
    (runRaf r s).doc.length = s.doc.length ∧
    (∀ i, (runRaf r s).acts.count i = s.acts.count i + r.count i) ∧
    (∀ i, i ∈ (runRaf r s).observed ↔ (i ∈ s.observed ∧ i ∉ r)) ∧
    (∀ i, 1 ≤ (runRaf r s).acts.count i →
      i ∉ (runRaf r s).observed ∧ attrTrue (runRaf r s).doc i = true ∧
        hasActive (runRaf r s).doc i = true) ∧
    (∀ i, i ∉ r → (runRaf r s).doc[i]? = s.doc[i]?) ∧
    DocAgree s.doc (runRaf r s).doc := by
  induction r generalizing s with
  | nil =>
    rw [runRaf_nil]
    exact ⟨hnd, rfl, rfl, rfl, fun i => by simp, fun i => by simp, hact, fun i _ => rfl,
      DocAgree_refl _⟩
  | cons i rest ih =>
    rw [runRaf_cons]
    -- the head callback targets an observed, hence valid, element
    have hio : i ∈ s.observed := hro i (List.mem_cons_self i rest)
    have hiv : i < s.doc.length := hvl i hio
    obtain ⟨eiv, he⟩ := getElem_some_of_lt s.doc i hiv
    rcases activateElem_shape s i with ⟨hn, _⟩ | ⟨e, he', heq⟩
    · rw [he] at hn; cases hn
    set s' : SA :=
      { s with
        doc := s.doc.set i (actUpd e),
        observed := s.observed.filter (fun j => j ≠ i),
        acts := s.acts ++ [i] } with hs'
    rw [heq]
    have hset_attr : ∀ j, j ≠ i → attrAt s'.doc j = attrAt s.doc j := by
      intro j hji
      show attrAt (s.doc.set i (actUpd e)) j = attrAt s.doc j
      unfold attrAt
      rw [List.getElem?_set_ne (fun hh => hji hh.symm)]
    have hattr_i : attrTrue s'.doc i = true := by
      show attrTrue (s.doc.set i (actUpd e)) i = true
      unfold attrTrue
      rw [List.getElem?_set_self (by simpa using hiv)]
      simp [actUpd]
    have hactive_i : hasActive s'.doc i = true := by
      show hasActive (s.doc.set i (actUpd e)) i = true
      unfold hasActive
      rw [List.getElem?_set_self (by simpa using hiv)]
      exact classAdd_contains_self "active" e.classes
    have hattr_pres : ∀ j, attrTrue s.doc j = true → attrTrue s'.doc j = true := by
      intro j hj
      by_cases hji : j = i
      · rw [hji]; exact hattr_i
      · rw [attrTrue_congr _ _ j (hset_attr j hji)]; exact hj
    have hactive_pres : ∀ j, hasActive s.doc j = true → hasActive s'.doc j = true := by
      intro j hj
      by_cases hji : j = i
      · rw [hji]; exact hactive_i
      · show hasActive (s.doc.set i (actUpd e)) j = true
        unfold hasActive
        rw [List.getElem?_set_ne (fun hh => hji hh.symm)]
        unfold hasActive at hj
        exact hj
    -- re-establish the loop hypotheses for the tail
    have hnd' : s'.observed.Nodup := List.Nodup.filter _ hnd
    have hcnt' : ∀ j, s'.acts.count j + rest.count j ≤ 1 := by
      intro j
      have := hcnt j
      rw [List.count_cons] at this
      show (s.acts ++ [i]).count j + rest.count j ≤ 1
      rw [List.count_append]
      by_cases hji : j = i <;> simp [hji] at this ⊢ <;> omega
    have hro' : ∀ j, j ∈ rest → j ∈ s'.observed := by
      intro j hj
      have hji : j ≠ i := by
        intro hh
        have hc2 := hcnt i
        have h2 : (i :: rest).count i ≥ 2 := by
          rw [List.count_cons_self]
          have : rest.count i ≥ 1 := List.one_le_count_iff.mpr (hh ▸ hj)
          omega
        omega
      exact List.mem_filter.mpr ⟨hro j (List.mem_cons_of_mem i hj), by simp [hji]⟩
    have hvl' : ∀ j, j ∈ s'.observed → j < s'.doc.length := by
      intro j hj
      have : j ∈ s.observed := (List.mem_filter.mp hj).1
      show j < (s.doc.set i (actUpd e)).length
      rw [List.length_set]
      exact hvl j this
    have hact' : ∀ j, 1 ≤ s'.acts.count j →
        j ∉ s'.observed ∧ attrTrue s'.doc j = true ∧ hasActive s'.doc j = true := by
      intro j hj
      by_cases hji : j = i
      · subst hji
        refine ⟨fun hmem => ?_, hattr_i, hactive_i⟩
        have := (List.mem_filter.mp hmem).2
        simp at this
      · have hj0 : 1 ≤ s.acts.count j := by
          show 1 ≤ s.acts.count j
          have : (s.acts ++ [i]).count j = s.acts.count j := by
            rw [List.count_append]
            simp [hji]
          rw [this] at hj
          exact hj
        obtain ⟨ho, ha, hc⟩ := hact j hj0
        refine ⟨fun hmem => ho (List.mem_filter.mp hmem).1, hattr_pres j ha, hactive_pres j hc⟩
    obtain ⟨nd2, rf2, w2, l2, cnt2, obs2, act2, doc2, ag2⟩ := ih s' hnd' hcnt' hro' hvl' hact'
    refine ⟨nd2, rf2, w2, by rw [l2]; show (s.doc.set i (actUpd e)).length = _; rw [List.length_set],
      ?_, ?_, act2, ?_, ?_⟩
    · intro j
      rw [cnt2 j]
      show (s.acts ++ [i]).count j + rest.count j = s.acts.count j + (i :: rest).count j
      rw [List.count_append, List.count_cons]
      by_cases hji : j = i <;> simp [hji] <;> omega
    · intro j
      rw [obs2 j]
      constructor
      · rintro ⟨hmem, hnr⟩
        obtain ⟨hms, hji⟩ := List.mem_filter.mp hmem
        refine ⟨hms, fun hmem2 => ?_⟩
        rcases List.mem_cons.mp hmem2 with hh | hh
        · simp [hh] at hji
        · exact hnr hh
      · rintro ⟨hms, hnr⟩
        have hji : j ≠ i := fun hh => hnr (by rw [hh]; exact List.mem_cons_self i rest)
        exact ⟨List.mem_filter.mpr ⟨hms, by simp [hji]⟩, fun hh => hnr (List.mem_cons_of_mem i hh)⟩
    · intro j hj
      have hji : j ≠ i := fun hh => hj (by rw [hh]; exact List.mem_cons_self i rest)
      rw [doc2 j (fun hh => hj (List.mem_cons_of_mem i hh))]
      show (s.doc.set i (actUpd e))[j]? = s.doc[j]?
      exact List.getElem?_set_ne (fun hh => hji hh.symm)
    · exact DocAgree_trans (set_agree s.doc i e (actUpd e) he' (actUpd_agree e)) ag2

/-! ## Notification delivery -/

theorem handleIntersection_spec (entries : List (Nat × Bool)) (st : SA) :
    handleIntersection entries st =
      { st with raf := st.raf ++ (entries.filter (fun p => p.2)).map (fun p => p.1) } := by
  induction entries generalizing st with
  | nil => simp [handleIntersection]
  | cons p rest ih =>
    show handleIntersection rest
      (if p.2 = true then { st with raf := st.raf ++ [p.1] } else st) = _
    rcases hp : p.2 with _ | _
    · rw [if_neg (show ¬(false = true) by simp)]
      rw [ih st]
      simp [List.filter_cons, hp]
    · rw [if_pos rfl]
      rw [ih { st with raf := st.raf ++ [p.1] }]
      simp [List.filter_cons, hp, List.append_assoc]

theorem filter_map_vis (l : List Nat) (vis : Nat → Bool) :
    ((l.map (fun i => (i, vis i))).filter (fun p => p.2)).map (fun p => p.1) =
      l.filter vis := by
  induction l with
  | nil => rfl
  | cons i rest ih =>
    simp only [List.map_cons, List.filter_cons]
    rcases hv : vis i with _ | _ <;> simp [hv, ih]

theorem notify_spec (vis : Nat → Bool) (st : SA) :
    notify vis st = { st with raf := st.raf ++ st.observed.filter vis } := by
  unfold notify
  rw [handleIntersection_spec, filter_map_vis]

/-! ## Step-level invariant preservation -/

theorem stepF_vis_def (f : Nat → Bool) (st : SA) :
    stepF (Frame.vis f) st = notify f (rafFlush st) := rfl

theorem stepF_rescan_def (st : SA) : stepF Frame.rescan st = observeElements st := rfl

theorem runF_nil (st : SA) : runF [] st = st := rfl

theorem runF_cons (fr : Frame) (rest : List Frame) (st : SA) :
    runF (fr :: rest) st = runF rest (stepF fr st) := rfl

theorem rafFlush_flush (st : SA) (h : SAInv st) :
    (rafFlush st).observed.Nodup ∧
    (rafFlush st).raf = [] ∧
    (rafFlush st).warnings = st.warnings ∧
    (rafFlush st).doc.length = st.doc.length ∧
    (∀ i, (rafFlush st).acts.count i = st.acts.count i + st.raf.count i) ∧
    (∀ i, i ∈ (rafFlush st).observed ↔ (i ∈ st.observed ∧ i ∉ st.raf)) ∧
    (∀ i, 1 ≤ (rafFlush st).acts.count i →
      i ∉ (rafFlush st).observed ∧ attrTrue (rafFlush st).doc i = true ∧
        hasActive (rafFlush st).doc i = true) ∧
    (∀ i, i ∉ st.raf → (rafFlush st).doc[i]? = st.doc[i]?) ∧
    DocAgree st.doc (rafFlush st).doc := by
  obtain ⟨hnd, hrest⟩ := h
  have := flush_master st.raf { st with raf := [] } hnd
    (fun i => (hrest i).1) (fun i hi => (hrest i).2.1 hi) (fun i hi => (hrest i).2.2.1 hi)
    (fun i hi => (hrest i).2.2.2 hi)
  exact this

theorem stepF_inv (fr : Frame) (st : SA) (h : SAInv st) : SAInv (stepF fr st) := by
  rcases fr with f | _
  · rw [stepF_vis_def]
    obtain ⟨nd1, rf1, _, l1, cnt1, obs1, act1, _, _⟩ := rafFlush_flush st h
    rw [notify_spec]
    refine ⟨nd1, fun i => ?_⟩
    refine ⟨?_, ?_, ?_, ?_⟩
    · show (rafFlush st).acts.count i + ((rafFlush st).raf ++ _).count i ≤ 1
      rw [rf1]
      simp only [List.nil_append]
      by_cases hi : 1 ≤ (rafFlush st).acts.count i
      · have hno := (act1 i hi).1
        have : ((rafFlush st).observed.filter f).count i = 0 := by
          rw [List.count_eq_zero]
          intro hmem
          exact hno (List.mem_of_mem_filter hmem)
        rw [this]
        rw [cnt1 i]
        exact (h.2 i).1
      · push_neg at hi
        have h0 : (rafFlush st).acts.count i = 0 := by omega
        rw [h0]
        have : ((rafFlush st).observed.filter f).count i ≤ (rafFlush st).observed.count i :=
          (List.filter_sublist _).count_le i
        have h1 : (rafFlush st).observed.count i ≤ 1 :=
          List.nodup_iff_count_le_one.mp nd1 i
        omega
    · intro hi
      show i ∈ (rafFlush st).observed
      replace hi : i ∈ (rafFlush st).raf ++ (rafFlush st).observed.filter f := hi
      rw [rf1] at hi
      simp only [List.nil_append] at hi
      exact List.mem_of_mem_filter hi
    · intro hi
      replace hi : i ∈ (rafFlush st).observed := hi
      show i < (rafFlush st).doc.length
      rw [l1]
      exact (h.2 i).2.2.1 ((obs1 i).mp hi).1
    · intro hi
      replace hi : 1 ≤ (rafFlush st).acts.count i := hi
      obtain ⟨hno, ha, hc⟩ := act1 i hi
      exact ⟨hno, ha, hc⟩
  · rw [stepF_rescan_def]
    obtain ⟨hnd, hrest⟩ := h
    refine ⟨observeElements_nodup st hnd, fun i => ?_⟩
    refine ⟨?_, ?_, ?_, ?_⟩
    · rw [observeElements_acts, observeElements_raf]
      exact (hrest i).1
    · intro hi
      rw [observeElements_raf] at hi
      exact observeElements_obs_sup st i ((hrest i).2.1 hi)
    · intro hi
      rw [observeElements_doc_length]
      rcases observeElements_obs_new st i hi with hold | ⟨_, hlen⟩
      · exact (hrest i).2.2.1 hold
      · exact hlen
    · intro hi
      rw [observeElements_acts] at hi
      obtain ⟨hno, ha, hc⟩ := (hrest i).2.2.2 hi
      refine ⟨?_, ?_, ?_⟩
      · rw [observeElements_marked st i ha]
        exact hno
      · rw [attrTrue_congr _ _ i (observeElements_attrAt st i)]
        exact ha
      · rw [observeElements_hasActive]
        exact hc

theorem runF_inv (fs : List Frame) (st : SA) (h : SAInv st) : SAInv (runF fs st) := by
  induction fs generalizing st with
  | nil => exact h
  | cons fr rest ih =>
    rw [runF_cons]
    exact ih (stepF fr st) (stepF_inv fr st h)

theorem mkSA_inv (d : Doc) : SAInv (mkSA d) := by
  refine ⟨List.nodup_nil, fun i => ?_⟩
  refine ⟨by simp [mkSA], ?_, ?_, ?_⟩
  · intro hi; cases hi
  · intro hi; cases hi
  · intro hi; simp [mkSA] at hi

/-! ## Monotonicity along a run -/

theorem activateElem_mono (st : SA) (i j : Nat) :
    st.acts.count j ≤ (activateElem st i).acts.count j ∧
    (hasActive st.doc j = true → hasActive (activateElem st i).doc j = true) ∧
    (attrTrue st.doc j = true → attrTrue (activateElem st i).doc j = true) := by
  rcases activateElem_shape st i with ⟨_, heq⟩ | ⟨e, he, heq⟩
  · rw [heq]; exact ⟨le_refl _, fun h => h, fun h => h⟩
  · rw [heq]
    refine ⟨?_, ?_, ?_⟩
    · show st.acts.count j ≤ (st.acts ++ [i]).count j
      rw [List.count_append]
      omega
    · intro hj
      by_cases hji : j = i
      · show hasActive (st.doc.set i (actUpd e)) j = true
        rw [hji]
        unfold hasActive
        rw [List.getElem?_set_self (List.getElem?_eq_some.mp he).1]
        exact classAdd_contains_self "active" e.classes
      · show hasActive (st.doc.set i (actUpd e)) j = true
        unfold hasActive
        rw [List.getElem?_set_ne (fun hh => hji hh.symm)]
        unfold hasActive at hj
        exact hj
    · intro hj
      by_cases hji : j = i
      · show attrTrue (st.doc.set i (actUpd e)) j = true
        rw [hji]
        unfold attrTrue
        rw [List.getElem?_set_self (List.getElem?_eq_some.mp he).1]
        rfl
      · show attrTrue (st.doc.set i (actUpd e)) j = true
        unfold attrTrue
        rw [List.getElem?_set_ne (fun hh => hji hh.symm)]
        unfold attrTrue at hj
        exact hj

theorem runRaf_mono (r : List Nat) (s : SA) (j : Nat) :
    s.acts.count j ≤ (runRaf r s).acts.count j ∧
    (hasActive s.doc j = true → hasActive (runRaf r s).doc j = true) ∧
    (attrTrue s.doc j = true → attrTrue (runRaf r s).doc j = true) := by
  induction r generalizing s with
  | nil => exact ⟨le_refl _, fun h => h, fun h => h⟩
  | cons i rest ih =>
    rw [runRaf_cons]
    obtain ⟨c1, a1, t1⟩ := activateElem_mono s i j
    obtain ⟨c2, a2, t2⟩ := ih (activateElem s i)
    exact ⟨c1.trans c2, fun h => a2 (a1 h), fun h => t2 (t1 h)⟩

theorem stepF_mono (fr : Frame) (st : SA) (j : Nat) :
    st.acts.count j ≤ (stepF fr st).acts.count j ∧
    (hasActive st.doc j = true → hasActive (stepF fr st).doc j = true) ∧
    (attrTrue st.doc j = true → attrTrue (stepF fr st).doc j = true) := by
  rcases fr with f | _
  · rw [stepF_vis_def, notify_spec]
    show st.acts.count j ≤ (rafFlush st).acts.count j ∧
      (hasActive st.doc j = true → hasActive (rafFlush st).doc j = true) ∧
      (attrTrue st.doc j = true → attrTrue (rafFlush st).doc j = true)
    exact runRaf_mono st.raf { st with raf := [] } j
  · rw [stepF_rescan_def]
    refine ⟨?_, ?_, ?_⟩
    · rw [observeElements_acts]
    · intro h
      rw [observeElements_hasActive]
      exact h
    · intro h
      rw [attrTrue_congr _ _ j (observeElements_attrAt st j)]
      exact h

theorem runF_mono (fs : List Frame) (st : SA) (j : Nat) :
    st.acts.count j ≤ (runF fs st).acts.count j ∧
    (hasActive st.doc j = true → hasActive (runF fs st).doc j = true) ∧
    (attrTrue st.doc j = true → attrTrue (runF fs st).doc j = true) := by
  induction fs generalizing st with
  | nil => exact ⟨le_refl _, fun h => h, fun h => h⟩
  | cons fr rest ih =>
    rw [runF_cons]
    obtain ⟨c1, a1, t1⟩ := stepF_mono fr st j
    obtain ⟨c2, a2, t2⟩ := ih (stepF fr st)
    exact ⟨c1.trans c2, fun h => a2 (a1 h), fun h => t2 (t1 h)⟩

/-! ## Claim C1 -/

theorem init_true (st : SA) : init true st = observeElements st := rfl

theorem init_inv (d : Doc) : SAInv (init true (mkSA d)) := by
  rw [init_true, ← stepF_rescan_def]
  exact stepF_inv Frame.rescan (mkSA d) (mkSA_inv d)

theorem vis_activates (st : SA) (h : SAInv st) (i : Nat) (f g : Nat → Bool)
    (hobs : i ∈ st.observed) (hvis : f i = true) :
    1 ≤ (stepF (Frame.vis g) (stepF (Frame.vis f) st)).acts.count i := by
  obtain ⟨nd1, rf1, _, _, cnt1, obs1, act1, _, _⟩ := rafFlush_flush st h
  have hinv1 : SAInv (stepF (Frame.vis f) st) := stepF_inv (Frame.vis f) st h
  by_cases hir : i ∈ st.raf
  · -- the pending callback fires at the first flush
    have h1 : 1 ≤ (rafFlush st).acts.count i := by
      rw [cnt1 i]
      have : 1 ≤ st.raf.count i := List.one_le_count_iff.mpr hir
      omega
    have h2 : 1 ≤ (stepF (Frame.vis f) st).acts.count i := by
      rw [stepF_vis_def, notify_spec]
      exact h1
    calc 1 ≤ (stepF (Frame.vis f) st).acts.count i := h2
      _ ≤ (stepF (Frame.vis g) (stepF (Frame.vis f) st)).acts.count i :=
          (stepF_mono (Frame.vis g) _ i).1
  · -- the element is notified at the first frame and activated at the second
    have hmem1 : i ∈ (rafFlush st).observed := (obs1 i).mpr ⟨hobs, hir⟩
    have hraf1 : i ∈ (stepF (Frame.vis f) st).raf := by
      rw [stepF_vis_def, notify_spec]
      show i ∈ (rafFlush st).raf ++ (rafFlush st).observed.filter f
      rw [rf1]
      simp only [List.nil_append]
      exact List.mem_filter.mpr ⟨hmem1, hvis⟩
    obtain ⟨_, _, _, _, cnt2, _, _, _, _⟩ := rafFlush_flush _ hinv1
    have h3 : 1 ≤ (rafFlush (stepF (Frame.vis f) st)).acts.count i := by
      rw [cnt2 i]
      have : 1 ≤ (stepF (Frame.vis f) st).raf.count i := List.one_le_count_iff.mpr hraf1
      omega
    rw [stepF_vis_def, notify_spec]
    exact h3

/-- **C1.** Every element watched by the scan-and-watch path is activated
exactly once after it first satisfies the visibility policy: its `active`
class and `data-animated="true"` marker are set, its ghost activation count
is exactly 1 in every continuation of the run, and — over any run whatsoever
from initialisation, with any sequence of rendering frames and re-scans —
no element is ever activated more than once. -/
theorem C1_activation_at_most_once
    (d : Doc) (pre post : List Frame) (f g : Nat → Bool) (i : Nat)
    (hobs : i ∈ (runF pre (init true (mkSA d))).observed)
    (hvis : f i = true) :
    (∀ (fs : List Frame) (j : Nat), (runF fs (init true (mkSA d))).acts.count j ≤ 1) ∧
    ((runF post (stepF (Frame.vis g) (stepF (Frame.vis f)
        (runF pre (init true (mkSA d)))))).acts.count i = 1 ∧
      hasActive (runF post (stepF (Frame.vis g) (stepF (Frame.vis f)
        (runF pre (init true (mkSA d)))))).doc i = true ∧
      attrTrue (runF post (stepF (Frame.vis g) (stepF (Frame.vis f)
        (runF pre (init true (mkSA d)))))).doc i = true) := by
  have hbound : ∀ (fs : List Frame) (j : Nat),
      (runF fs (init true (mkSA d))).acts.count j ≤ 1 := by
    intro fs j
    have hfin := runF_inv fs (init true (mkSA d)) (init_inv d)
    have := (hfin.2 j).1
    omega
  refine ⟨hbound, ?_⟩
  set s := runF pre (init true (mkSA d)) with hs
  have hinvs : SAInv s := runF_inv pre _ (init_inv d)
  have h1 : 1 ≤ (stepF (Frame.vis g) (stepF (Frame.vis f) s)).acts.count i :=
    vis_activates s hinvs i f g hobs hvis
  have h2 : 1 ≤ (runF post (stepF (Frame.vis g) (stepF (Frame.vis f) s))).acts.count i :=
    le_trans h1 (runF_mono post _ i).1
  have hfin : SAInv (runF post (stepF (Frame.vis g) (stepF (Frame.vis f) s))) :=
    runF_inv post _ (stepF_inv _ _ (stepF_inv _ _ hinvs))
  have hle : (runF post (stepF (Frame.vis g) (stepF (Frame.vis f) s))).acts.count i ≤ 1 := by
    have := (hfin.2 i).1
    omega
  obtain ⟨_, ha, hc⟩ := (hfin.2 i).2.2.2 h2
  exact ⟨le_antisymm hle h2, hc, ha⟩

/-- Witness for C1 at a concrete one-element document. -/
theorem C1_witness :
    (0 ∈ (runF [] (init true (mkSA [⟨"DIV", [], none, []⟩]))).observed) ∧
    (runF [] (stepF (Frame.vis (fun _ => false)) (stepF (Frame.vis (fun _ => true))
      (runF [] (init true (mkSA [⟨"DIV", [], none, []⟩])))))).acts.count 0 = 1 :=
  ⟨by with_unfolding_all decide,
   (C1_activation_at_most_once [⟨"DIV", [], none, []⟩] [] [] (fun _ => true) (fun _ => false) 0
     (by with_unfolding_all decide) rfl).2.1⟩

/-! ## Claim C2 -/

/-- **C2 counterexample.**  In the viewport-entry callback the code does
*not* remove the activated element from the observed set synchronously:
after `handleIntersection` returns for an intersecting entry, the element
is still observed; the whole activation — including the `unobserve` — has
merely been scheduled on the animation-frame queue. -/
theorem C2_counterexample :
    (handleIntersection [(0, true)]
        ⟨[⟨"DIV", [], none, []⟩], [0], [], [], 0⟩).observed = [0] ∧
    (handleIntersection [(0, true)]
        ⟨[⟨"DIV", [], none, []⟩], [0], [], [], 0⟩).raf = [0] := by
  with_unfolding_all decide

/-- **C2 (amended).**  The viewport-entry callback defers *everything* to
the paint-scheduled callback: it leaves the observed set and the document
untouched and only appends the intersecting targets to the animation-frame
queue; the unwatch happens later, inside the paint-scheduled callback,
together with the class/attribute mutation. -/
theorem C2_unwatch_deferred (entries : List (Nat × Bool)) (st : SA) :
    (handleIntersection entries st).observed = st.observed ∧
    (handleIntersection entries st).doc = st.doc ∧
    (handleIntersection entries st).raf =
      st.raf ++ (entries.filter (fun p => p.2)).map (fun p => p.1) ∧
    (∀ (s : SA) (i : Nat) (e : Elem), s.doc[i]? = some e →
      (activateElem s i).observed = s.observed.filter (fun j => j ≠ i) ∧
      hasActive (activateElem s i).doc i = true ∧
      attrTrue (activateElem s i).doc i = true) := by
  rw [handleIntersection_spec]
  refine ⟨rfl, rfl, rfl, ?_⟩
  intro s i e he
  rcases activateElem_shape s i with ⟨hn, _⟩ | ⟨e', he', heq⟩
  · rw [he] at hn; cases hn
  · rw [heq]
    refine ⟨rfl, ?_, ?_⟩
    · show hasActive (s.doc.set i (actUpd e')) i = true
      unfold hasActive
      rw [List.getElem?_set_self (List.getElem?_eq_some.mp he').1]
      exact classAdd_contains_self "active" e'.classes
    · show attrTrue (s.doc.set i (actUpd e')) i = true
      unfold attrTrue
      rw [List.getElem?_set_self (List.getElem?_eq_some.mp he').1]
      rfl

/-- Witness for the amended C2. -/
theorem C2_witness :
    (activateElem ⟨[⟨"DIV", [], none, []⟩], [0], [0], [], 0⟩ 0).observed =
      ([0].filter (fun j => j ≠ 0)) ∧
    hasActive (activateElem ⟨[⟨"DIV", [], none, []⟩], [0], [0], [], 0⟩ 0).doc 0 = true ∧
    attrTrue (activateElem ⟨[⟨"DIV", [], none, []⟩], [0], [0], [], 0⟩ 0).doc 0 = true :=
  (C2_unwatch_deferred [] (mkSA [])).2.2.2
    ⟨[⟨"DIV", [], none, []⟩], [0], [0], [], 0⟩ 0 ⟨"DIV", [], none, []⟩ rfl

/-! ## Claim C3 -/

theorem excl_invariant (fs : List Frame) (st : SA) (d : Doc) (i : Nat) (e : Elem)
    (hinv : SAInv st) (hag : DocAgree d st.doc) (hcur : st.doc[i]? = some e)
    (hx : isElementExcluded d e = true)
    (hobs : i ∉ st.observed) (hraf : i ∉ st.raf) (hcnt : st.acts.count i = 0) :
    DocAgree d (runF fs st).doc ∧ (runF fs st).doc[i]? = some e ∧
    i ∉ (runF fs st).observed ∧ i ∉ (runF fs st).raf ∧
    (runF fs st).acts.count i = 0 := by
  induction fs generalizing st with
  | nil => exact ⟨hag, hcur, hobs, hraf, hcnt⟩
  | cons fr rest ih =>
    rw [runF_cons]
    have hinv' : SAInv (stepF fr st) := stepF_inv fr st hinv
    rcases fr with f | _
    · obtain ⟨_, rf1, _, _, cnt1, obs1, _, doc1, ag1⟩ := rafFlush_flush st hinv
      have hdoc : (rafFlush st).doc[i]? = some e := (doc1 i hraf).trans hcur
      have hobs1 : i ∉ (rafFlush st).observed := fun hmem => hobs ((obs1 i).mp hmem).1
      have hcnt1 : (rafFlush st).acts.count i = 0 := by
        rw [cnt1 i, hcnt, List.count_eq_zero.mpr hraf]
      refine ih (stepF (Frame.vis f) st) hinv' ?_ ?_ ?_ ?_ ?_
      · rw [stepF_vis_def, notify_spec]
        exact DocAgree_trans hag ag1
      · rw [stepF_vis_def, notify_spec]
        exact hdoc
      · rw [stepF_vis_def, notify_spec]
        exact hobs1
      · rw [stepF_vis_def, notify_spec]
        show i ∉ (rafFlush st).raf ++ (rafFlush st).observed.filter f
        rw [rf1]
        simp only [List.nil_append]
        intro hmem
        exact hobs1 (List.mem_of_mem_filter hmem)
      · rw [stepF_vis_def, notify_spec]
        exact hcnt1
    · have hxcur : isElementExcluded st.doc e = true := by
        rw [isElementExcluded_congr d st.doc e e hag (agreeOutside_refl e)]
        exact hx
      obtain ⟨hdoc, hobsIff⟩ := observeElements_excluded st i e hcur hxcur
      refine ih (stepF Frame.rescan st) hinv' ?_ ?_ ?_ ?_ ?_
      · rw [stepF_rescan_def]
        exact DocAgree_trans hag (observeElements_agree st)
      · rw [stepF_rescan_def]
        exact hdoc
      · rw [stepF_rescan_def]
        intro hmem
        exact hobs (hobsIff.mp hmem)
      · rw [stepF_rescan_def, observeElements_raf]
        exact hraf
      · rw [stepF_rescan_def, observeElements_acts]
        exact hcnt

/-- **C3.**  An element matching an exclusion selector — directly or
through the wildcard (`closest`) form — is never watched and never
activated by the scan-and-watch path, over any run from initialisation:
it is never in the observed set, its activation count stays 0, and its
document entry is left completely untouched. -/
theorem C3_excluded_never_watched (d : Doc) (fs : List Frame) (i : Nat) (e : Elem)
    (he : d[i]? = some e) (hx : isElementExcluded d e = true) :
    i ∉ (runF fs (init true (mkSA d))).observed ∧
    (runF fs (init true (mkSA d))).acts.count i = 0 ∧
    (runF fs (init true (mkSA d))).doc[i]? = some e := by
  have hx0 : isElementExcluded (mkSA d).doc e = true := hx
  obtain ⟨hdoc, hobsIff⟩ := observeElements_excluded (mkSA d) i e he hx0
  have h0 := excl_invariant fs (init true (mkSA d)) d i e (init_inv d)
    (by rw [init_true]; exact observeElements_agree (mkSA d))
    (by rw [init_true]; exact hdoc)
    hx
    (by rw [init_true]; intro hmem; exact absurd (hobsIff.mp hmem) (List.not_mem_nil i))
    (by rw [init_true, observeElements_raf]; exact List.not_mem_nil i)
    (by rw [init_true, observeElements_acts]; rfl)
  exact ⟨h0.2.2.1, h0.2.2.2.2, h0.2.1⟩

/-- Witness for C3: a `div.footer__bottom` element is excluded and stays
unobserved through a frame in which it is fully visible. -/
theorem C3_witness :
    isElementExcluded [⟨"DIV", ["footer__bottom"], none, []⟩]
      ⟨"DIV", ["footer__bottom"], none, []⟩ = true ∧
    0 ∉ (runF [Frame.vis (fun _ => true)]
      (init true (mkSA [⟨"DIV", ["footer__bottom"], none, []⟩]))).observed :=
  ⟨by with_unfolding_all decide,
   (C3_excluded_never_watched [⟨"DIV", ["footer__bottom"], none, []⟩]
     [Frame.vis (fun _ => true)] 0 ⟨"DIV", ["footer__bottom"], none, []⟩ rfl
     (by with_unfolding_all decide)).1⟩

/-! ## Claim C10 -/

theorem fbElems_nil (st : SA) : fbElems [] st = st := rfl

theorem fbElems_cons (i : Nat) (rest : List Nat) (st : SA) :
    fbElems (i :: rest) st = fbElems rest (fallbackStep st i) := rfl

theorem fbSels_nil (st : SA) : fbSels [] st = st := by with_unfolding_all rfl

theorem fbSels_cons (sel : String) (rest : List String) (st : SA) :
    fbSels (sel :: rest) st = fbSels rest (fbElems (querySelectorAll sel st.doc) st) := by
  with_unfolding_all rfl

theorem fallbackStep_shape (st : SA) (i : Nat) :
    ((st.doc[i]? = none ∨ hasActive st.doc i = true) ∧ fallbackStep st i = st) ∨
    (∃ e, st.doc[i]? = some e ∧ e.classes.contains "active" = false ∧
      fallbackStep st i =
        { st with
          doc := st.doc.set i
            { e with classes := classAdd "active" (classAdd "fade-in-up" e.classes) } }) := by
  rcases h : st.doc[i]? with _ | e
  · left
    exact ⟨Or.inl rfl, by simp [fallbackStep, h]⟩
  · rcases ha : e.classes.contains "active" with _ | _
    · right
      have ha' : "active" ∉ e.classes := fun hm => by
        rw [(contains_iff_mem _ _).mpr hm] at ha
        cases ha
      exact ⟨e, rfl, ha, by simp [fallbackStep, h, ha']⟩
    · left
      have ha' : "active" ∈ e.classes := (contains_iff_mem _ _).mp ha
      refine ⟨Or.inr ?_, by simp [fallbackStep, h, ha']⟩
      unfold hasActive
      rw [h]
      exact ha

theorem fallbackStep_attrAt (st : SA) (i j : Nat) :
    attrAt (fallbackStep st i).doc j = attrAt st.doc j := by
  rcases fallbackStep_shape st i with ⟨_, heq⟩ | ⟨e, he, _, heq⟩
  · rw [heq]
  · rw [heq]
    exact set_attrAt st.doc i e
      { e with classes := classAdd "active" (classAdd "fade-in-up" e.classes) } he rfl j

theorem fbElems_attrAt (L : List Nat) (st : SA) (j : Nat) :
    attrAt (fbElems L st).doc j = attrAt st.doc j := by
  induction L generalizing st with
  | nil => rfl
  | cons i rest ih =>
    rw [fbElems_cons]
    exact (ih (fallbackStep st i)).trans (fallbackStep_attrAt st i j)

theorem fbSels_attrAt (sels : List String) (st : SA) (j : Nat) :
    attrAt (fbSels sels st).doc j = attrAt st.doc j := by
  induction sels generalizing st with
  | nil => rw [fbSels_nil]
  | cons sel rest ih =>
    rw [fbSels_cons]
    exact (ih (fbElems (querySelectorAll sel st.doc) st)).trans
      (fbElems_attrAt (querySelectorAll sel st.doc) st j)

theorem fallbackAnimation_def (st : SA) :
    fallbackAnimation st = fbSels targetElements { st with warnings := st.warnings + 1 } := rfl

/-- **C10.**  The fallback path never touches attributes: the
`data-animated` view of every element is exactly as before, so an element
activated only through the fallback never carries the permanent
`data-animated="true"` marker. -/
theorem C10_fallback_no_marker (st : SA) (i : Nat) :
    attrAt (fallbackAnimation st).doc i = attrAt st.doc i ∧
    (attrTrue st.doc i = false → attrTrue (fallbackAnimation st).doc i = false) := by
  have h : attrAt (fallbackAnimation st).doc i = attrAt st.doc i := by
    rw [fallbackAnimation_def]
    exact fbSels_attrAt targetElements { st with warnings := st.warnings + 1 } i
  exact ⟨h, fun hf => (attrTrue_congr _ _ i h).trans hf⟩

/-- Witness for C10 at a concrete document. -/
theorem C10_witness :
    attrTrue (mkSA [⟨"DIV", [], none, []⟩]).doc 0 = false ∧
    attrTrue (fallbackAnimation (mkSA [⟨"DIV", [], none, []⟩])).doc 0 = false :=
  ⟨by with_unfolding_all decide,
   (C10_fallback_no_marker (mkSA [⟨"DIV", [], none, []⟩]) 0).2
     (by with_unfolding_all decide)⟩

/-! ## Claim C8 -/

/-- **C8.**  Menu toggle behaviour: a click on the trigger flips the
panel's `active` class and sets the icon to the close glyph exactly when
the resulting class list says the panel is open; a click on a navigation
link (inside the panel, outside the trigger) forces the panel closed with
the menu glyph; a click outside both panel and trigger forces the panel
closed with the menu glyph.  In each case open/closed is read off the
panel's class list at dispatch time. -/
theorem C8_menu_toggle (s : MenuState) (t : ClickTarget) :
    (t.inToggle = true → t.isNavLink = false →
      (dispatchClick t s).navClasses.contains "active" =
        (!s.navClasses.contains "active") ∧
      (dispatchClick t s).icon =
        (if (dispatchClick t s).navClasses.contains "active" = true
          then "ri-close-line" else "ri-menu-line")) ∧
    (t.isNavLink = true → t.inToggle = false → t.inNavbar = true →
      (dispatchClick t s).navClasses.contains "active" = false ∧
      (dispatchClick t s).icon = "ri-menu-line") ∧
    (t.inToggle = false → t.inNavbar = false →
      (dispatchClick t s).navClasses.contains "active" = false ∧
      (dispatchClick t s).icon = "ri-menu-line") := by
  refine ⟨?_, ?_, ?_⟩
  · intro hit hinl
    have hd : dispatchClick t s = triggerHandler s := by
      unfold dispatchClick docHandler
      rw [hit, hinl]
      simp
    rw [hd]
    refine ⟨classToggle_contains_self "active" s.navClasses, ?_⟩
    rfl
  · intro hinl hit hinb
    have hd : dispatchClick t s = linkHandler s := by
      unfold dispatchClick docHandler
      rw [hit, hinl, hinb]
      simp
    rw [hd]
    exact ⟨classRemove_contains_self "active" s.navClasses, rfl⟩
  · intro hit hinb
    have hd : dispatchClick t s =
        { navClasses := classRemove "active"
            (if t.isNavLink = true then linkHandler s else s).navClasses,
          icon := "ri-menu-line" } := by
      unfold dispatchClick docHandler
      rw [hit, hinb]
      simp
    rw [hd]
    exact ⟨classRemove_contains_self "active" _, rfl⟩

/-- Witness for C8: a closed menu opens on a trigger click, an open menu
closes on a link click, and an open menu closes on an outside click. -/
theorem C8_witness :
    ((dispatchClick ⟨true, false, false⟩ ⟨[], "ri-menu-line"⟩).navClasses.contains "active"
      = (!([] : List String).contains "active")) ∧
    ((dispatchClick ⟨false, true, true⟩ ⟨["active"], "ri-close-line"⟩).navClasses.contains
      "active" = false) ∧
    (dispatchClick ⟨false, false, false⟩ ⟨["active"], "ri-close-line"⟩).icon = "ri-menu-line" :=
  ⟨((C8_menu_toggle ⟨[], "ri-menu-line"⟩ ⟨true, false, false⟩).1 rfl rfl).1,
   ((C8_menu_toggle ⟨["active"], "ri-close-line"⟩ ⟨false, true, true⟩).2.1 rfl rfl rfl).1,
   ((C8_menu_toggle ⟨["active"], "ri-close-line"⟩ ⟨false, false, false⟩).2.2 rfl rfl).2⟩

/-! ## Claims C5 and C9: `triggerAnimation` -/

theorem hasActive_eq (d : Doc) (i : Nat) (e : Elem) (he : d[i]? = some e) :
    hasActive d i = e.classes.contains "active" := by
  unfold hasActive
  rw [he]

theorem attrTrue_eq (d : Doc) (i : Nat) (e : Elem) (he : d[i]? = some e) :
    attrTrue d i = (e.dataAnimated == some "true") := by
  unfold attrTrue
  rw [he]

theorem trigElems_nil (st : SA) : trigElems [] st = st := rfl

theorem trigElems_cons (i : Nat) (rest : List Nat) (st : SA) :
    trigElems (i :: rest) st = trigElems rest (triggerStep st i) := rfl

theorem triggerStep_shape (st : SA) (i : Nat) :
    ((st.doc[i]? = none ∨ hasActive st.doc i = true) ∧ triggerStep st i = st) ∨
    (∃ e, st.doc[i]? = some e ∧ e.classes.contains "active" = false ∧
      triggerStep st i = { st with doc := st.doc.set i (actUpd e) }) := by
  rcases h : st.doc[i]? with _ | e
  · left
    exact ⟨Or.inl rfl, by simp [triggerStep, h]⟩
  · rcases ha : e.classes.contains "active" with _ | _
    · right
      have ha' : "active" ∉ e.classes := fun hm => by
        rw [(contains_iff_mem _ _).mpr hm] at ha
        cases ha
      exact ⟨e, rfl, ha, by simp [triggerStep, h, ha', actUpd]⟩
    · left
      have ha' : "active" ∈ e.classes := (contains_iff_mem _ _).mp ha
      refine ⟨Or.inr ?_, by simp [triggerStep, h, ha']⟩
      unfold hasActive
      rw [h]
      exact ha

theorem triggerStep_fields (st : SA) (i : Nat) :
    (triggerStep st i).observed = st.observed ∧ (triggerStep st i).raf = st.raf ∧
    (triggerStep st i).acts = st.acts ∧ (triggerStep st i).warnings = st.warnings := by
  rcases triggerStep_shape st i with ⟨_, heq⟩ | ⟨e, _, _, heq⟩ <;> rw [heq] <;>
    exact ⟨rfl, rfl, rfl, rfl⟩

theorem trigElems_fields (L : List Nat) (st : SA) :
    (trigElems L st).observed = st.observed ∧ (trigElems L st).raf = st.raf ∧
    (trigElems L st).acts = st.acts ∧ (trigElems L st).warnings = st.warnings := by
  induction L generalizing st with
  | nil => exact ⟨rfl, rfl, rfl, rfl⟩
  | cons i rest ih =>
    rw [trigElems_cons]
    obtain ⟨o1, r1, a1, w1⟩ := ih (triggerStep st i)
    obtain ⟨o2, r2, a2, w2⟩ := triggerStep_fields st i
    exact ⟨o1.trans o2, r1.trans r2, a1.trans a2, w1.trans w2⟩

theorem trigElems_untouched (L : List Nat) (st : SA) (j : Nat) (hj : j ∉ L) :
    (trigElems L st).doc[j]? = st.doc[j]? := by
  induction L generalizing st with
  | nil => rfl
  | cons i rest ih =>
    rw [trigElems_cons]
    have hji : j ≠ i := fun hh => hj (by rw [hh]; exact List.mem_cons_self i rest)
    have hjr : j ∉ rest := fun hh => hj (List.mem_cons_of_mem i hh)
    rcases triggerStep_shape st i with ⟨_, heq⟩ | ⟨e, _, _, heq⟩ <;> rw [heq]
    · exact ih st hjr
    · rw [ih _ hjr]
      exact List.getElem?_set_ne (fun hh => hji hh.symm)

theorem trigElems_active_noop (L : List Nat) (st : SA) (j : Nat)
    (hj : hasActive st.doc j = true) :
    (trigElems L st).doc[j]? = st.doc[j]? := by
  induction L generalizing st with
  | nil => rfl
  | cons i rest ih =>
    rw [trigElems_cons]
    rcases triggerStep_shape st i with ⟨_, heq⟩ | ⟨e, he, hna, heq⟩ <;> rw [heq]
    · exact ih st hj
    · by_cases hji : j = i
      · exfalso
        rw [hasActive_eq st.doc j e (by rw [hji]; exact he)] at hj
        rw [hj] at hna
        cases hna
      · have hset : (st.doc.set i (actUpd e))[j]? = st.doc[j]? :=
          List.getElem?_set_ne (fun hh => hji hh.symm)
        have hj' : hasActive { st with doc := st.doc.set i (actUpd e) }.doc j = true := by
          show hasActive (st.doc.set i (actUpd e)) j = true
          unfold hasActive
          rw [hset]
          unfold hasActive at hj
          exact hj
        rw [ih _ hj']
        exact hset

theorem trigElems_exact (L : List Nat) (st : SA) (j : Nat) (hj : j ∈ L) (e : Elem)
    (he : st.doc[j]? = some e) (hna : e.classes.contains "active" = false) :
    (trigElems L st).doc[j]? = some (actUpd e) := by
  induction L generalizing st e with
  | nil => cases hj
  | cons i rest ih =>
    rw [trigElems_cons]
    by_cases hji : j = i
    · rcases triggerStep_shape st i with ⟨hskip, heq⟩ | ⟨e1, he1, _, heq⟩
      · exfalso
        rcases hskip with hn | ha
        · rw [← hji, he] at hn; cases hn
        · rw [hasActive_eq st.doc i e (hji ▸ he)] at ha
          rw [ha] at hna
          cases hna
      · rw [← hji] at he1
        rw [he] at he1
        cases he1
        rw [heq]
        have hlen : j < st.doc.length := (List.getElem?_eq_some.mp he).1
        have hact : hasActive { st with doc := st.doc.set i (actUpd e) }.doc j = true := by
          show hasActive (st.doc.set i (actUpd e)) j = true
          unfold hasActive
          rw [hji, List.getElem?_set_self (hji ▸ hlen)]
          exact classAdd_contains_self "active" e.classes
        rw [trigElems_active_noop rest _ j hact]
        show (st.doc.set i (actUpd e))[j]? = some (actUpd e)
        rw [hji]
        rw [List.getElem?_set_self (hji ▸ hlen)]
    · have hjr : j ∈ rest := by
        rcases List.mem_cons.mp hj with hh | hh
        · exact absurd hh hji
        · exact hh
      rcases triggerStep_shape st i with ⟨_, heq⟩ | ⟨e1, he1, _, heq⟩ <;> rw [heq]
      · exact ih st hjr e he hna
      · have hset : (st.doc.set i (actUpd e1))[j]? = st.doc[j]? :=
          List.getElem?_set_ne (fun hh => hji hh.symm)
        exact ih _ hjr e (hset.trans he) hna

theorem trigElems_activates (L : List Nat) (st : SA) (j : Nat) (hj : j ∈ L) (e : Elem)
    (he : st.doc[j]? = some e) : hasActive (trigElems L st).doc j = true := by
  rcases ha : e.classes.contains "active" with _ | _
  · have := trigElems_exact L st j hj e he ha
    unfold hasActive
    rw [this]
    exact classAdd_contains_self "active" e.classes
  · have := trigElems_active_noop L st j (by unfold hasActive; rw [he]; exact ha)
    unfold hasActive
    rw [this, he]
    exact ha

theorem trigElems_all_active (L : List Nat) (st : SA)
    (h : ∀ j ∈ L, hasActive st.doc j = true) : trigElems L st = st := by
  induction L with
  | nil => rfl
  | cons i rest ih =>
    rw [trigElems_cons]
    have hstep : triggerStep st i = st := by
      rcases triggerStep_shape st i with ⟨_, heq⟩ | ⟨e, he, hna, _⟩
      · exact heq
      · exfalso
        have := h i (List.mem_cons_self i rest)
        rw [hasActive_eq st.doc i e he] at this
        rw [this] at hna
        cases hna
    rw [hstep]
    exact ih (fun j hj => h j (List.mem_cons_of_mem i hj))

theorem triggerAnimation_sel_def (sel : String) (st : SA) :
    triggerAnimation (Sum.inl sel) st = trigElems (querySelectorAll sel st.doc) st := rfl

theorem triggerAnimation_elem_def (i : Nat) (st : SA) :
    triggerAnimation (Sum.inr i) st = triggerStep st i := rfl

/-- **C5.**  `triggerAnimation` force-activates immediately and without any
visibility condition: every element matched by the selector ends up with
the `active` class; an element lacking `active` gets exactly the class and
the `data-animated="true"` marker; an element already carrying `active` is
left untouched (no-op); the element form is likewise a no-op on active
elements; the operation is idempotent (`trigger ∘ trigger = trigger`) and
never touches the observer state or scheduling queues. -/
theorem C5_trigger_idempotent :
    (∀ (sel : String) (st : SA) (i : Nat) (e : Elem),
      st.doc[i]? = some e → cssMatches sel e = true →
        hasActive (triggerAnimation (Sum.inl sel) st).doc i = true ∧
        (e.classes.contains "active" = false →
          (triggerAnimation (Sum.inl sel) st).doc[i]? = some (actUpd e)) ∧
        (e.classes.contains "active" = true →
          (triggerAnimation (Sum.inl sel) st).doc[i]? = some e)) ∧
    (∀ (st : SA) (i : Nat) (e : Elem), st.doc[i]? = some e →
        (e.classes.contains "active" = true → triggerAnimation (Sum.inr i) st = st) ∧
        hasActive (triggerAnimation (Sum.inr i) st).doc i = true) ∧
    (∀ (x : String ⊕ Nat) (st : SA),
      triggerAnimation x (triggerAnimation x st) = triggerAnimation x st) ∧
    (∀ (x : String ⊕ Nat) (st : SA),
      (triggerAnimation x st).observed = st.observed ∧
      (triggerAnimation x st).raf = st.raf ∧
      (triggerAnimation x st).acts = st.acts) := by
  have hsel_mem : ∀ (sel : String) (st : SA) (i : Nat) (e : Elem),
      st.doc[i]? = some e → cssMatches sel e = true →
      i ∈ querySelectorAll sel st.doc := by
    intro sel st i e he hm
    exact (mem_querySelectorAll sel st.doc i).mpr ⟨e, he, hm⟩
  refine ⟨?_, ?_, ?_, ?_⟩
  · intro sel st i e he hm
    have hq := hsel_mem sel st i e he hm
    rw [triggerAnimation_sel_def]
    refine ⟨trigElems_activates _ st i hq e he, ?_, ?_⟩
    · intro hna
      exact trigElems_exact _ st i hq e he hna
    · intro ha
      have : hasActive st.doc i = true := by
        rw [hasActive_eq st.doc i e he]
        exact ha
      exact (trigElems_active_noop _ st i this).trans he
  · intro st i e he
    rw [triggerAnimation_elem_def]
    constructor
    · intro ha
      rcases triggerStep_shape st i with ⟨_, heq⟩ | ⟨e1, he1, hna, _⟩
      · exact heq
      · rw [he] at he1
        cases he1
        rw [ha] at hna
        cases hna
    · rcases triggerStep_shape st i with ⟨hskip, heq⟩ | ⟨e1, he1, hna, heq⟩
      · rcases hskip with hn | ha
        · rw [he] at hn; cases hn
        · rw [heq]; exact ha
      · rw [heq]
        show hasActive (st.doc.set i (actUpd e1)) i = true
        unfold hasActive
        rw [List.getElem?_set_self (List.getElem?_eq_some.mp he1).1]
        exact classAdd_contains_self "active" e1.classes
  · rintro (sel | i) st
    · rw [triggerAnimation_sel_def, triggerAnimation_sel_def]
      apply trigElems_all_active
      intro j hj
      rcases (mem_querySelectorAll sel _ j).mp hj with ⟨e', he', hm'⟩
      by_cases hact : hasActive (trigElems (querySelectorAll sel st.doc) st).doc j = true
      · exact hact
      · exfalso
        -- an element still inactive after the first pass was untouched,
        -- hence it already matched in the original document and the first
        -- pass would have activated it
        by_cases hjL : j ∈ querySelectorAll sel st.doc
        · rcases (mem_querySelectorAll sel st.doc j).mp hjL with ⟨e0, he0, _⟩
          exact hact (trigElems_activates _ st j hjL e0 he0)
        · have hunt := trigElems_untouched (querySelectorAll sel st.doc) st j hjL
          rw [hunt] at he'
          exact hjL ((mem_querySelectorAll sel st.doc j).mpr ⟨e', he', hm'⟩)
    · rw [triggerAnimation_elem_def, triggerAnimation_elem_def]
      rcases triggerStep_shape st i with ⟨_, heq⟩ | ⟨e, he, hna, heq⟩
      · rw [heq, heq]
      · rw [heq]
        rcases triggerStep_shape { st with doc := st.doc.set i (actUpd e) } i
          with ⟨_, heq2⟩ | ⟨e2, he2, hna2, _⟩
        · exact heq2
        · exfalso
          have hset : (st.doc.set i (actUpd e))[i]? = some (actUpd e) :=
            List.getElem?_set_self (List.getElem?_eq_some.mp he).1
          rw [hset] at he2
          cases he2
          have : (actUpd e).classes.contains "active" = true :=
            classAdd_contains_self "active" e.classes
          rw [this] at hna2
          cases hna2
  · rintro (sel | i) st
    · rw [triggerAnimation_sel_def]
      obtain ⟨o, r, a, _⟩ := trigElems_fields (querySelectorAll sel st.doc) st
      exact ⟨o, r, a⟩
    · rw [triggerAnimation_elem_def]
      obtain ⟨o, r, a, _⟩ := triggerStep_fields st i
      exact ⟨o, r, a⟩

/-- Witness for C5. -/
theorem C5_witness :
    hasActive (triggerAnimation (Sum.inl ".card")
      (mkSA [⟨"DIV", ["card"], none, []⟩])).doc 0 = true ∧
    triggerAnimation (Sum.inr 0)
        (triggerAnimation (Sum.inr 0) (mkSA [⟨"DIV", ["card"], none, []⟩])) =
      triggerAnimation (Sum.inr 0) (mkSA [⟨"DIV", ["card"], none, []⟩]) :=
  ⟨(C5_trigger_idempotent.1 ".card" (mkSA [⟨"DIV", ["card"], none, []⟩]) 0
      ⟨"DIV", ["card"], none, []⟩ rfl (by with_unfolding_all decide)).1,
   C5_trigger_idempotent.2.2.1 (Sum.inr 0) (mkSA [⟨"DIV", ["card"], none, []⟩])⟩

/-- **C9.**  `triggerAnimation` applies no inclusion- or exclusion-list
filtering: *any* element matching the given selector that lacks the
`active` class receives the `active` class and the
`data-animated="true"` marker — no hypothesis about the inclusion list or
the exclusion list appears. -/
theorem C9_trigger_unfiltered (sel : String) (st : SA) (i : Nat) (e : Elem)
    (he : st.doc[i]? = some e) (hm : cssMatches sel e = true)
    (hna : e.classes.contains "active" = false) :
    (triggerAnimation (Sum.inl sel) st).doc[i]? = some (actUpd e) ∧
    hasActive (triggerAnimation (Sum.inl sel) st).doc i = true ∧
    attrTrue (triggerAnimation (Sum.inl sel) st).doc i = true := by
  have hq : i ∈ querySelectorAll sel st.doc :=
    (mem_querySelectorAll sel st.doc i).mpr ⟨e, he, hm⟩
  rw [triggerAnimation_sel_def]
  have hx := trigElems_exact (querySelectorAll sel st.doc) st i hq e he hna
  refine ⟨hx, ?_, ?_⟩
  · rw [hasActive_eq _ i (actUpd e) hx]
    exact classAdd_contains_self "active" e.classes
  · rw [attrTrue_eq _ i (actUpd e) hx]
    rfl

/-- Witness for C9: an *excluded* `footer__bottom` element still gets
activated by `triggerAnimation`. -/
theorem C9_witness :
    isElementExcluded [⟨"DIV", ["footer__bottom"], none, []⟩]
      ⟨"DIV", ["footer__bottom"], none, []⟩ = true ∧
    hasActive (triggerAnimation (Sum.inl ".footer__bottom")
      (mkSA [⟨"DIV", ["footer__bottom"], none, []⟩])).doc 0 = true :=
  ⟨by with_unfolding_all decide,
   (C9_trigger_unfiltered ".footer__bottom" (mkSA [⟨"DIV", ["footer__bottom"], none, []⟩])
     0 ⟨"DIV", ["footer__bottom"], none, []⟩ rfl (by with_unfolding_all decide) rfl).2.1⟩

/-! ## Claim C4: the fallback path -/

theorem init_false (st : SA) : init false st = fallbackAnimation st := rfl

theorem fbUpd_agree (e : Elem) :
    agreeOutside e
      { e with classes := classAdd "active" (classAdd "fade-in-up" e.classes) } := by
  refine ⟨rfl, rfl, fun c hc => ?_⟩
  have h1 : c ≠ "active" := fun hh => hc (by simp [touchedClasses, hh])
  have h2 : c ≠ "fade-in-up" := fun hh => hc (by simp [touchedClasses, hh])
  show (classAdd "active" (classAdd "fade-in-up" e.classes)).contains c =
    e.classes.contains c
  rw [classAdd_contains_ne _ _ _ h1, classAdd_contains_ne _ _ _ h2]

theorem fallbackStep_agree (st : SA) (i : Nat) :
    DocAgree st.doc (fallbackStep st i).doc := by
  rcases fallbackStep_shape st i with ⟨_, heq⟩ | ⟨e, he, _, heq⟩
  · rw [heq]; exact DocAgree_refl _
  · rw [heq]; exact set_agree st.doc i e _ he (fbUpd_agree e)

theorem fallbackStep_active_mono (st : SA) (i j : Nat)
    (hj : hasActive st.doc j = true) : hasActive (fallbackStep st i).doc j = true := by
  rcases fallbackStep_shape st i with ⟨_, heq⟩ | ⟨e, he, hna, heq⟩
  · rw [heq]; exact hj
  · rw [heq]
    by_cases hji : j = i
    · exfalso
      rw [hasActive_eq st.doc j e (by rw [hji]; exact he)] at hj
      rw [hj] at hna
      cases hna
    · show hasActive (st.doc.set i _) j = true
      unfold hasActive
      rw [List.getElem?_set_ne (fun hh => hji hh.symm)]
      unfold hasActive at hj
      exact hj

theorem fbElems_active_mono (L : List Nat) (st : SA) (j : Nat)
    (hj : hasActive st.doc j = true) : hasActive (fbElems L st).doc j = true := by
  induction L generalizing st with
  | nil => exact hj
  | cons i rest ih =>
    rw [fbElems_cons]
    exact ih (fallbackStep st i) (fallbackStep_active_mono st i j hj)

theorem fbElems_agree (L : List Nat) (st : SA) : DocAgree st.doc (fbElems L st).doc := by
  induction L generalizing st with
  | nil => exact DocAgree_refl _
  | cons i rest ih =>
    rw [fbElems_cons]
    exact DocAgree_trans (fallbackStep_agree st i) (ih (fallbackStep st i))

theorem fbElems_activates (L : List Nat) (st : SA) (j : Nat) (hj : j ∈ L) (e : Elem)
    (he : st.doc[j]? = some e) : hasActive (fbElems L st).doc j = true := by
  induction hj generalizing st e with
  | head as =>
    rw [fbElems_cons]
    have hact : hasActive (fallbackStep st j).doc j = true := by
      rcases fallbackStep_shape st j with ⟨hskip, heq⟩ | ⟨e1, he1, _, heq⟩
      · rcases hskip with hn | ha
        · rw [he] at hn; cases hn
        · rw [heq]; exact ha
      · rw [heq]
        show hasActive (st.doc.set j _) j = true
        unfold hasActive
        rw [List.getElem?_set_self (List.getElem?_eq_some.mp he1).1]
        exact classAdd_contains_self "active" (classAdd "fade-in-up" e1.classes)
    exact fbElems_active_mono as _ j hact
  | tail b hmem ih =>
    rw [fbElems_cons]
    rcases ((fallbackStep_agree st b).2 j).1 e he with ⟨e', he', _⟩
    exact ih (fallbackStep st b) e' he'

theorem fbSels_active_mono (sels : List String) (st : SA) (j : Nat)
    (hj : hasActive st.doc j = true) : hasActive (fbSels sels st).doc j = true := by
  induction sels generalizing st with
  | nil => rw [fbSels_nil]; exact hj
  | cons sel rest ih =>
    rw [fbSels_cons]
    exact ih _ (fbElems_active_mono (querySelectorAll sel st.doc) st j hj)

theorem fbSels_agree (sels : List String) (st : SA) : DocAgree st.doc (fbSels sels st).doc := by
  induction sels generalizing st with
  | nil => rw [fbSels_nil]; exact DocAgree_refl _
  | cons sel rest ih =>
    rw [fbSels_cons]
    exact DocAgree_trans (fbElems_agree (querySelectorAll sel st.doc) st) (ih _)

theorem fbSels_activates (sels : List String) (st : SA) (sel : String)
    (hsel : sel ∈ sels) (hok : selOk sel = true) (j : Nat) (e : Elem)
    (he : st.doc[j]? = some e) (hm : cssMatches sel e = true) :
    hasActive (fbSels sels st).doc j = true := by
  induction hsel generalizing st e with
  | head as =>
    rw [fbSels_cons]
    have hq : j ∈ querySelectorAll sel st.doc :=
      (mem_querySelectorAll sel st.doc j).mpr ⟨e, he, hm⟩
    exact fbSels_active_mono as _ j (fbElems_activates _ st j hq e he)
  | tail b hmem ih =>
    rw [fbSels_cons]
    rcases ((fbElems_agree (querySelectorAll b st.doc) st).2 j).1 e he with ⟨e', he', hag⟩
    have hm' : cssMatches sel e' = true := by
      rw [cssMatches_congr sel e e' hok hag]
      exact hm
    exact ih _ e' he' hm'

theorem fallbackStep_fields (st : SA) (i : Nat) :
    (fallbackStep st i).observed = st.observed ∧ (fallbackStep st i).raf = st.raf ∧
    (fallbackStep st i).acts = st.acts ∧ (fallbackStep st i).warnings = st.warnings := by
  rcases fallbackStep_shape st i with ⟨_, heq⟩ | ⟨e, _, _, heq⟩ <;> rw [heq] <;>
    exact ⟨rfl, rfl, rfl, rfl⟩

theorem fbElems_fields (L : List Nat) (st : SA) :
    (fbElems L st).observed = st.observed ∧ (fbElems L st).raf = st.raf ∧
    (fbElems L st).acts = st.acts ∧ (fbElems L st).warnings = st.warnings := by
  induction L generalizing st with
  | nil => exact ⟨rfl, rfl, rfl, rfl⟩
  | cons i rest ih =>
    rw [fbElems_cons]
    obtain ⟨o1, r1, a1, w1⟩ := ih (fallbackStep st i)
    obtain ⟨o2, r2, a2, w2⟩ := fallbackStep_fields st i
    exact ⟨o1.trans o2, r1.trans r2, a1.trans a2, w1.trans w2⟩

theorem fbSels_fields (sels : List String) (st : SA) :
    (fbSels sels st).observed = st.observed ∧ (fbSels sels st).raf = st.raf ∧
    (fbSels sels st).acts = st.acts ∧ (fbSels sels st).warnings = st.warnings := by
  induction sels generalizing st with
  | nil => rw [fbSels_nil]; exact ⟨rfl, rfl, rfl, rfl⟩
  | cons sel rest ih =>
    rw [fbSels_cons]
    obtain ⟨o1, r1, a1, w1⟩ := ih (fbElems (querySelectorAll sel st.doc) st)
    obtain ⟨o2, r2, a2, w2⟩ := fbElems_fields (querySelectorAll sel st.doc) st
    exact ⟨o1.trans o2, r1.trans r2, a1.trans a2, w1.trans w2⟩

/-- **C4.**  When `IntersectionObserver` is unavailable, `init` watches
nothing (observed set, animation-frame queue and activation log stay
empty), logs exactly one warning, and — after the fixed 100 ms delay —
every element matching *any* inclusion selector ends up with the `active`
class, with no exclusion check (the hypothesis set mentions no exclusion:
excluded elements are activated too). -/
theorem C4_fallback (d : Doc) (i : Nat) (e : Elem) (sel : String)
    (hsel : sel ∈ targetElements) (he : d[i]? = some e)
    (hm : cssMatches sel e = true) :
    hasActive (init false (mkSA d)).doc i = true ∧
    (init false (mkSA d)).observed = [] ∧
    (init false (mkSA d)).raf = [] ∧
    (init false (mkSA d)).acts = [] ∧
    (init false (mkSA d)).warnings = 1 ∧
    fallbackDelayMs = 100 := by
  rw [init_false, fallbackAnimation_def]
  obtain ⟨o, r, a, w⟩ := fbSels_fields targetElements { mkSA d with warnings := 1 }
  refine ⟨?_, o, r, a, w, rfl⟩
  exact fbSels_activates targetElements { mkSA d with warnings := 1 } sel hsel
    (targets_selOk sel hsel) i e he hm

/-- Witness for C4: an *excluded* `div.footer__bottom` element is still
activated by the fallback. -/
theorem C4_witness :
    isElementExcluded [⟨"DIV", ["footer__bottom"], none, []⟩]
      ⟨"DIV", ["footer__bottom"], none, []⟩ = true ∧
    hasActive (init false (mkSA [⟨"DIV", ["footer__bottom"], none, []⟩])).doc 0 = true ∧
    (init false (mkSA [⟨"DIV", ["footer__bottom"], none, []⟩])).observed = [] :=
  ⟨by with_unfolding_all decide,
   (C4_fallback [⟨"DIV", ["footer__bottom"], none, []⟩] 0
     ⟨"DIV", ["footer__bottom"], none, []⟩ "div" (by decide) rfl
     (by with_unfolding_all decide)).1,
   (C4_fallback [⟨"DIV", ["footer__bottom"], none, []⟩] 0
     ⟨"DIV", ["footer__bottom"], none, []⟩ "div" (by decide) rfl
     (by with_unfolding_all decide)).2.1⟩

/-! ## Claim C6: `resetAnimations` -/

theorem resetElems_nil (st : SA) : resetElems [] st = st := rfl

theorem resetElems_cons (i : Nat) (rest : List Nat) (st : SA) :
    resetElems (i :: rest) st = resetElems rest (resetStep st i) := rfl

theorem resetSels_nil (st : SA) : resetSels [] st = st := by with_unfolding_all rfl

theorem resetSels_cons (sel : String) (rest : List String) (st : SA) :
    resetSels (sel :: rest) st =
      resetSels rest (resetElems (querySelectorAll sel st.doc) st) := by
  with_unfolding_all rfl

theorem resetStep_shape (st : SA) (i : Nat) :
    (st.doc[i]? = none ∧ resetStep st i = st) ∨
    (∃ e, st.doc[i]? = some e ∧ resetStep st i =
      { st with
        doc := st.doc.set i
          { e with classes := classRemove "active" e.classes, dataAnimated := none } }) := by
  rcases h : st.doc[i]? with _ | e
  · left
    exact ⟨rfl, by simp [resetStep, h]⟩
  · right
    exact ⟨e, rfl, by simp [resetStep, h]⟩

theorem resetUpd_agree (e : Elem) :
    agreeOutside e
      { e with classes := classRemove "active" e.classes, dataAnimated := none } := by
  refine ⟨rfl, rfl, fun c hc => ?_⟩
  have h1 : c ≠ "active" := fun hh => hc (by simp [touchedClasses, hh])
  exact classRemove_contains_ne _ c _ h1

theorem resetStep_agree (st : SA) (i : Nat) : DocAgree st.doc (resetStep st i).doc := by
  rcases resetStep_shape st i with ⟨_, heq⟩ | ⟨e, he, heq⟩
  · rw [heq]; exact DocAgree_refl _
  · rw [heq]; exact set_agree st.doc i e _ he (resetUpd_agree e)

theorem resetStep_inactive_mono (st : SA) (i j : Nat)
    (hj : hasActive st.doc j = false) : hasActive (resetStep st i).doc j = false := by
  rcases resetStep_shape st i with ⟨_, heq⟩ | ⟨e, he, heq⟩
  · rw [heq]; exact hj
  · rw [heq]
    by_cases hji : j = i
    · show hasActive (st.doc.set i _) j = false
      unfold hasActive
      rw [hji, List.getElem?_set_self (List.getElem?_eq_some.mp he).1]
      exact classRemove_contains_self "active" e.classes
    · show hasActive (st.doc.set i _) j = false
      unfold hasActive
      rw [List.getElem?_set_ne (fun hh => hji hh.symm)]
      unfold hasActive at hj
      exact hj

theorem resetStep_attrnone_mono (st : SA) (i j : Nat)
    (hj : attrAt st.doc j = some none) : attrAt (resetStep st i).doc j = some none := by
  rcases resetStep_shape st i with ⟨_, heq⟩ | ⟨e, he, heq⟩
  · rw [heq]; exact hj
  · rw [heq]
    by_cases hji : j = i
    · show attrAt (st.doc.set i _) j = some none
      unfold attrAt
      rw [hji, List.getElem?_set_self (List.getElem?_eq_some.mp he).1]
      rfl
    · show attrAt (st.doc.set i _) j = some none
      unfold attrAt
      rw [List.getElem?_set_ne (fun hh => hji hh.symm)]
      unfold attrAt at hj
      exact hj

theorem resetElems_inactive_mono (L : List Nat) (st : SA) (j : Nat)
    (hj : hasActive st.doc j = false) : hasActive (resetElems L st).doc j = false := by
  induction L generalizing st with
  | nil => exact hj
  | cons i rest ih =>
    rw [resetElems_cons]
    exact ih (resetStep st i) (resetStep_inactive_mono st i j hj)

theorem resetElems_attrnone_mono (L : List Nat) (st : SA) (j : Nat)
    (hj : attrAt st.doc j = some none) : attrAt (resetElems L st).doc j = some none := by
  induction L generalizing st with
  | nil => exact hj
  | cons i rest ih =>
    rw [resetElems_cons]
    exact ih (resetStep st i) (resetStep_attrnone_mono st i j hj)

theorem resetElems_agree (L : List Nat) (st : SA) :
    DocAgree st.doc (resetElems L st).doc := by
  induction L generalizing st with
  | nil => exact DocAgree_refl _
  | cons i rest ih =>
    rw [resetElems_cons]
    exact DocAgree_trans (resetStep_agree st i) (ih (resetStep st i))

theorem resetElems_clears (L : List Nat) (st : SA) (j : Nat) (hj : j ∈ L) (e : Elem)
    (he : st.doc[j]? = some e) :
    hasActive (resetElems L st).doc j = false ∧
    attrAt (resetElems L st).doc j = some none := by
  induction hj generalizing st e with
  | head as =>
    rw [resetElems_cons]
    rcases resetStep_shape st j with ⟨hn, _⟩ | ⟨e1, he1, heq⟩
    · rw [he] at hn; cases hn
    · have hact : hasActive (resetStep st j).doc j = false := by
        rw [heq]
        show hasActive (st.doc.set j _) j = false
        unfold hasActive
        rw [List.getElem?_set_self (List.getElem?_eq_some.mp he1).1]
        exact classRemove_contains_self "active" e1.classes
      have hattr : attrAt (resetStep st j).doc j = some none := by
        rw [heq]
        show attrAt (st.doc.set j _) j = some none
        unfold attrAt
        rw [List.getElem?_set_self (List.getElem?_eq_some.mp he1).1]
        rfl
      exact ⟨resetElems_inactive_mono as _ j hact, resetElems_attrnone_mono as _ j hattr⟩
  | tail b hmem ih =>
    rw [resetElems_cons]
    rcases ((resetStep_agree st b).2 j).1 e he with ⟨e', he', _⟩
    exact ih (resetStep st b) e' he'

theorem resetSels_inactive_mono (sels : List String) (st : SA) (j : Nat)
    (hj : hasActive st.doc j = false) : hasActive (resetSels sels st).doc j = false := by
  induction sels generalizing st with
  | nil => rw [resetSels_nil]; exact hj
  | cons sel rest ih =>
    rw [resetSels_cons]
    exact ih _ (resetElems_inactive_mono (querySelectorAll sel st.doc) st j hj)

theorem resetSels_attrnone_mono (sels : List String) (st : SA) (j : Nat)
    (hj : attrAt st.doc j = some none) : attrAt (resetSels sels st).doc j = some none := by
  induction sels generalizing st with
  | nil => rw [resetSels_nil]; exact hj
  | cons sel rest ih =>
    rw [resetSels_cons]
    exact ih _ (resetElems_attrnone_mono (querySelectorAll sel st.doc) st j hj)

theorem resetSels_agree (sels : List String) (st : SA) :
    DocAgree st.doc (resetSels sels st).doc := by
  induction sels generalizing st with
  | nil => rw [resetSels_nil]; exact DocAgree_refl _
  | cons sel rest ih =>
    rw [resetSels_cons]
    exact DocAgree_trans (resetElems_agree (querySelectorAll sel st.doc) st) (ih _)

theorem resetSels_clears (sels : List String) (st : SA) (sel : String)
    (hsel : sel ∈ sels) (hok : selOk sel = true) (j : Nat) (e : Elem)
    (he : st.doc[j]? = some e) (hm : cssMatches sel e = true) :
    hasActive (resetSels sels st).doc j = false ∧
    attrAt (resetSels sels st).doc j = some none := by
  induction hsel generalizing st e with
  | head as =>
    rw [resetSels_cons]
    have hq : j ∈ querySelectorAll sel st.doc :=
      (mem_querySelectorAll sel st.doc j).mpr ⟨e, he, hm⟩
    obtain ⟨h1, h2⟩ := resetElems_clears _ st j hq e he
    exact ⟨resetSels_inactive_mono as _ j h1, resetSels_attrnone_mono as _ j h2⟩
  | tail b hmem ih =>
    rw [resetSels_cons]
    rcases ((resetElems_agree (querySelectorAll b st.doc) st).2 j).1 e he with ⟨e', he', hag⟩
    have hm' : cssMatches sel e' = true := by
      rw [cssMatches_congr sel e e' hok hag]
      exact hm
    exact ih _ e' he' hm'

theorem resetStep_fields (st : SA) (i : Nat) :
    (resetStep st i).observed = st.observed ∧ (resetStep st i).raf = st.raf ∧
    (resetStep st i).acts = st.acts ∧ (resetStep st i).warnings = st.warnings := by
  rcases resetStep_shape st i with ⟨_, heq⟩ | ⟨e, _, heq⟩ <;> rw [heq] <;>
    exact ⟨rfl, rfl, rfl, rfl⟩

theorem resetElems_fields (L : List Nat) (st : SA) :
    (resetElems L st).observed = st.observed ∧ (resetElems L st).raf = st.raf ∧
    (resetElems L st).acts = st.acts ∧ (resetElems L st).warnings = st.warnings := by
  induction L generalizing st with
  | nil => exact ⟨rfl, rfl, rfl, rfl⟩
  | cons i rest ih =>
    rw [resetElems_cons]
    obtain ⟨o1, r1, a1, w1⟩ := ih (resetStep st i)
    obtain ⟨o2, r2, a2, w2⟩ := resetStep_fields st i
    exact ⟨o1.trans o2, r1.trans r2, a1.trans a2, w1.trans w2⟩

theorem resetSels_fields (sels : List String) (st : SA) :
    (resetSels sels st).observed = st.observed ∧ (resetSels sels st).raf = st.raf ∧
    (resetSels sels st).acts = st.acts ∧ (resetSels sels st).warnings = st.warnings := by
  induction sels generalizing st with
  | nil => rw [resetSels_nil]; exact ⟨rfl, rfl, rfl, rfl⟩
  | cons sel rest ih =>
    rw [resetSels_cons]
    obtain ⟨o1, r1, a1, w1⟩ := ih (resetElems (querySelectorAll sel st.doc) st)
    obtain ⟨o2, r2, a2, w2⟩ := resetElems_fields (querySelectorAll sel st.doc) st
    exact ⟨o1.trans o2, r1.trans r2, a1.trans a2, w1.trans w2⟩

theorem resetAnimations_def (st : SA) :
    resetAnimations st = observeElements (resetSels targetElements st) := rfl

theorem attrTrue_of_none (d : Doc) (j : Nat) (h : attrAt d j = some none) :
    attrTrue d j = false := by
  unfold attrAt at h
  rcases hd : d[j]? with _ | e
  · rw [hd] at h; cases h
  · rw [hd] at h
    have hnone : e.dataAnimated = none := by simpa using h
    rw [attrTrue_eq d j e hd, hnone]
    rfl

theorem activateElem_length (st : SA) (i : Nat) :
    (activateElem st i).doc.length = st.doc.length := by
  rcases activateElem_shape st i with ⟨_, heq⟩ | ⟨e, _, heq⟩
  · rw [heq]
  · rw [heq]
    exact List.length_set st.doc i (actUpd e)

theorem runRaf_length (r : List Nat) (s : SA) :
    (runRaf r s).doc.length = s.doc.length := by
  induction r generalizing s with
  | nil => rfl
  | cons i rest ih =>
    rw [runRaf_cons]
    exact (ih (activateElem s i)).trans (activateElem_length s i)

theorem runRaf_obs_keep (r : List Nat) (s : SA) (i : Nat)
    (hio : i ∈ s.observed) (hir : i ∉ r) : i ∈ (runRaf r s).observed := by
  induction r generalizing s with
  | nil => exact hio
  | cons k rest ih =>
    rw [runRaf_cons]
    have hik : i ≠ k := fun hh => hir (by rw [hh]; exact List.mem_cons_self k rest)
    have hirr : i ∉ rest := fun hh => hir (List.mem_cons_of_mem k hh)
    refine ih (activateElem s k) ?_ hirr
    rcases activateElem_shape s k with ⟨_, heq⟩ | ⟨e, _, heq⟩ <;> rw [heq]
    · exact hio
    · exact List.mem_filter.mpr ⟨hio, by simp [hik]⟩

theorem runRaf_activates (r : List Nat) (s : SA) (i : Nat) (hi : i ∈ r)
    (hv : i < s.doc.length) :
    hasActive (runRaf r s).doc i = true ∧ attrTrue (runRaf r s).doc i = true := by
  induction hi generalizing s with
  | head as =>
    rw [runRaf_cons]
    obtain ⟨ev, he⟩ := getElem_some_of_lt s.doc i hv
    rcases activateElem_shape s i with ⟨hn, _⟩ | ⟨e, he', heq⟩
    · rw [he] at hn; cases hn
    · have hact : hasActive (activateElem s i).doc i = true := by
        rw [heq]
        show hasActive (s.doc.set i (actUpd e)) i = true
        unfold hasActive
        rw [List.getElem?_set_self hv]
        exact classAdd_contains_self "active" e.classes
      have hattr : attrTrue (activateElem s i).doc i = true := by
        rw [heq]
        show attrTrue (s.doc.set i (actUpd e)) i = true
        unfold attrTrue
        rw [List.getElem?_set_self hv]
        rfl
      exact ⟨(runRaf_mono as _ i).2.1 hact, (runRaf_mono as _ i).2.2 hattr⟩
  | tail b hmem ih =>
    rw [runRaf_cons]
    refine ih (activateElem s b) ?_
    rw [activateElem_length]
    exact hv

theorem rafFlush_length (st : SA) : (rafFlush st).doc.length = st.doc.length :=
  runRaf_length st.raf { st with raf := [] }

theorem obs_reactivated (s : SA) (i : Nat) (f g : Nat → Bool)
    (hvis : f i = true) (hv : i < s.doc.length)
    (h : i ∈ s.observed ∨ i ∈ s.raf) :
    hasActive (stepF (Frame.vis g) (stepF (Frame.vis f) s)).doc i = true ∧
    attrTrue (stepF (Frame.vis g) (stepF (Frame.vis f) s)).doc i = true := by
  by_cases hir : i ∈ s.raf
  · -- a pending callback already targets the element; the first flush fires it
    have h1 : hasActive (rafFlush s).doc i = true ∧ attrTrue (rafFlush s).doc i = true :=
      runRaf_activates s.raf { s with raf := [] } i hir hv
    have h2 : hasActive (stepF (Frame.vis f) s).doc i = true ∧
        attrTrue (stepF (Frame.vis f) s).doc i = true := by
      rw [stepF_vis_def, notify_spec]
      exact h1
    exact ⟨(stepF_mono (Frame.vis g) _ i).2.1 h2.1, (stepF_mono (Frame.vis g) _ i).2.2 h2.2⟩
  · have hio : i ∈ s.observed := h.resolve_right hir
    have hkeep : i ∈ (rafFlush s).observed :=
      runRaf_obs_keep s.raf { s with raf := [] } i hio hir
    have hraf1 : i ∈ (stepF (Frame.vis f) s).raf := by
      rw [stepF_vis_def, notify_spec]
      show i ∈ (rafFlush s).raf ++ (rafFlush s).observed.filter f
      exact List.mem_append.mpr (Or.inr (List.mem_filter.mpr ⟨hkeep, hvis⟩))
    have hv1 : i < (stepF (Frame.vis f) s).doc.length := by
      rw [stepF_vis_def, notify_spec]
      show i < (rafFlush s).doc.length
      rw [rafFlush_length]
      exact hv
    have h3 : hasActive (rafFlush (stepF (Frame.vis f) s)).doc i = true ∧
        attrTrue (rafFlush (stepF (Frame.vis f) s)).doc i = true :=
      runRaf_activates _ _ i hraf1 hv1
    rw [stepF_vis_def g (stepF (Frame.vis f) s), notify_spec]
    exact h3

/-- **C6.**  After `resetAnimations`, every element matching an inclusion
selector has lost the `active` class and the `data-animated` attribute;
the scan is re-run, so every such non-excluded element is watched again;
and a subsequent viewport entry (a frame in which it is visible, followed
by the next rendering frame) re-activates it: class and marker are set
again. -/
theorem C6_reset_deactivates (st : SA) (i : Nat) (e : Elem) (sel : String)
    (hsel : sel ∈ targetElements) (he : st.doc[i]? = some e)
    (hm : cssMatches sel e = true) :
    hasActive (resetAnimations st).doc i = false ∧
    attrAt (resetAnimations st).doc i = some none ∧
    (isElementExcluded st.doc e = false →
      i ∈ (resetAnimations st).observed ∧
      ∀ f g : Nat → Bool, f i = true →
        hasActive (stepF (Frame.vis g) (stepF (Frame.vis f) (resetAnimations st))).doc i
          = true ∧
        attrTrue (stepF (Frame.vis g) (stepF (Frame.vis f) (resetAnimations st))).doc i
          = true) := by
  have hok := targets_selOk sel hsel
  obtain ⟨hcl1, hcl2⟩ := resetSels_clears targetElements st sel hsel hok i e he hm
  have hagree : DocAgree st.doc (resetSels targetElements st).doc :=
    resetSels_agree targetElements st
  rcases (hagree.2 i).1 e he with ⟨e1, he1, hag1⟩
  have hm1 : cssMatches sel e1 = true := by
    rw [cssMatches_congr sel e e1 hok hag1]
    exact hm
  have hA : hasActive (resetAnimations st).doc i = false := by
    rw [resetAnimations_def, observeElements_hasActive]
    exact hcl1
  have hB : attrAt (resetAnimations st).doc i = some none := by
    rw [resetAnimations_def, observeElements_attrAt]
    exact hcl2
  refine ⟨hA, hB, fun hx => ?_⟩
  have hx1 : isElementExcluded (resetSels targetElements st).doc e1 = false := by
    rw [isElementExcluded_congr st.doc _ e e1 hagree hag1]
    exact hx
  have hattr1 : attrTrue (resetSels targetElements st).doc i = false :=
    attrTrue_of_none _ i hcl2
  have hobs : i ∈ (resetAnimations st).observed := by
    rw [resetAnimations_def]
    exact observeElements_complete (resetSels targetElements st) sel hsel i e1 he1 hm1
      hattr1 hx1
  refine ⟨hobs, fun f g hvis => ?_⟩
  have hv : i < (resetAnimations st).doc.length := by
    rw [resetAnimations_def, observeElements_doc_length, hagree.1]
    exact (List.getElem?_eq_some.mp he).1
  exact obs_reactivated (resetAnimations st) i f g hvis hv (Or.inl hobs)

/-- Witness for C6: a previously activated `div.card` is cleared by the
reset, re-watched, and re-activated by a later viewport entry. -/
theorem C6_witness :
    hasActive (resetAnimations
      ⟨[⟨"DIV", ["card", "active"], some "true", []⟩], [], [], [0], 0⟩).doc 0 = false ∧
    hasActive (stepF (Frame.vis (fun _ => false)) (stepF (Frame.vis (fun _ => true))
      (resetAnimations
        ⟨[⟨"DIV", ["card", "active"], some "true", []⟩], [], [], [0], 0⟩))).doc 0 = true :=
  ⟨(C6_reset_deactivates ⟨[⟨"DIV", ["card", "active"], some "true", []⟩], [], [], [0], 0⟩
      0 ⟨"DIV", ["card", "active"], some "true", []⟩ ".card" (by decide) rfl
      (by with_unfolding_all decide)).1,
   (((C6_reset_deactivates ⟨[⟨"DIV", ["card", "active"], some "true", []⟩], [], [], [0], 0⟩
      0 ⟨"DIV", ["card", "active"], some "true", []⟩ ".card" (by decide) rfl
      (by with_unfolding_all decide)).2.2 (by with_unfolding_all decide)).2
      (fun _ => true) (fun _ => false) rfl).1⟩

/-! ## Claim C7: idempotence of the scan -/

theorem list_set_self (l : List Elem) (i : Nat) (a : Elem) (h : l[i]? = some a) :
    l.set i a = l := by
  apply List.ext_getElem?
  intro j
  by_cases hj : j = i
  · rw [hj, List.getElem?_set_self (List.getElem?_eq_some.mp h).1, h]
  · rw [List.getElem?_set_ne (fun hh => hj hh.symm)]

theorem procElems_marked_entry (L : List Nat) (st : SA) (p : List Nat) (j : Nat)
    (hm : attrTrue st.doc j = true) :
    (procElems L (st, p)).1.doc[j]? = st.doc[j]? := by
  induction L generalizing st p with
  | nil => rfl
  | cons i rest ih =>
    rw [procElems_cons]
    rcases processElement_shape st p i with ⟨_, heq⟩ | ⟨e, he, hattr, _, heq⟩
    · rw [heq]; exact ih st p hm
    · rw [heq]
      have hji : j ≠ i := fun hh => by
        rw [hh] at hm
        rw [hm] at hattr
        cases hattr
      have hset : (st.doc.set i (addDefault e))[j]? = st.doc[j]? :=
        List.getElem?_set_ne (fun hh => hji hh.symm)
      have hm' : attrTrue { st with doc := st.doc.set i (addDefault e) }.doc j = true := by
        rw [attrTrue_congr _ st.doc j
          (set_attrAt st.doc i e (addDefault e) he (addDefault_dataAnimated e) j)]
        exact hm
      exact (ih _ (p ++ [i]) hm').trans hset

theorem scanSelectors_marked_entry (sels : List String) (st : SA) (p : List Nat) (j : Nat)
    (hm : attrTrue st.doc j = true) :
    (scanSelectors sels (st, p)).1.doc[j]? = st.doc[j]? := by
  induction sels generalizing st p with
  | nil => rw [scanSelectors_nil]
  | cons sel rest ih =>
    rw [scanSelectors_cons]
    have h1 := procElems_marked_entry (querySelectorAll sel st.doc) st p j hm
    obtain ⟨_, _, _, _, _, at1, _, _⟩ := procElems_state (querySelectorAll sel st.doc) st p
    rcases hpr : procElems (querySelectorAll sel st.doc) (st, p) with ⟨st1, p1⟩
    rw [hpr] at h1 at1
    have hm' : attrTrue st1.doc j = true := by
      rw [attrTrue_congr _ st.doc j (at1 j)]
      exact hm
    exact (ih st1 p1 hm').trans h1

theorem procElems_anim_pres (L : List Nat) (st : SA) (p : List Nat) (j : Nat) (e : Elem)
    (he : st.doc[j]? = some e)
    (ha : animationClasses.any (fun c => e.classes.contains c) = true) :
    ∃ e', (procElems L (st, p)).1.doc[j]? = some e' ∧
      animationClasses.any (fun c => e'.classes.contains c) = true := by
  induction L generalizing st p e with
  | nil => exact ⟨e, he, ha⟩
  | cons i rest ih =>
    rw [procElems_cons]
    rcases processElement_shape st p i with ⟨_, heq⟩ | ⟨e1, he1, _, _, heq⟩
    · rw [heq]; exact ih st p e he ha
    · rw [heq]
      by_cases hji : j = i
    
      · have he1' : e1 = e := by
          rw [← hji] at he1
          rw [he] at he1
          exact (Option.some.inj he1).symm
        subst he1'
        have hid : addDefault e1 = e1 := by
          unfold addDefault
          rw [if_pos ha]
        have hset : (st.doc.set i (addDefault e1))[j]? = some e1 := by
          rw [hid, ← hji, list_set_self st.doc j e1 he]
          exact he
        exact ih _ (p ++ [i]) e1 hset ha
      · have hset : (st.doc.set i (addDefault e1))[j]? = some e :=
          (List.getElem?_set_ne (fun hh => hji hh.symm)).trans he
        exact ih _ (p ++ [i]) e hset ha

theorem scanSelectors_anim_pres (sels : List String) (st : SA) (p : List Nat) (j : Nat)
    (e : Elem) (he : st.doc[j]? = some e)
    (ha : animationClasses.any (fun c => e.classes.contains c) = true) :
    ∃ e', (scanSelectors sels (st, p)).1.doc[j]? = some e' ∧
      animationClasses.any (fun c => e'.classes.contains c) = true := by
  induction sels generalizing st p e with
  | nil => rw [scanSelectors_nil]; exact ⟨e, he, ha⟩
  | cons sel rest ih =>
    rw [scanSelectors_cons]
    obtain ⟨e1, he1, ha1⟩ := procElems_anim_pres (querySelectorAll sel st.doc) st p j e he ha
    rcases hpr : procElems (querySelectorAll sel st.doc) (st, p) with ⟨st1, p1⟩
    rw [hpr] at he1
    exact ih st1 p1 e1 he1 ha1

theorem procElems_anim (L : List Nat) (st : SA) (p : List Nat) (j : Nat) (hj : j ∈ L)
    (e : Elem) (he : st.doc[j]? = some e) (hattr : attrTrue st.doc j = false)
    (hx : isElementExcluded st.doc e = false) :
    ∃ e', (procElems L (st, p)).1.doc[j]? = some e' ∧
      animationClasses.any (fun c => e'.classes.contains c) = true := by
  induction hj generalizing st p e with
  | head as =>
    rw [procElems_cons]
    rcases processElement_shape st p j with ⟨hskip, heq⟩ | ⟨e1, he1, _, _, heq⟩
    · exfalso
      rcases hskip with hn | ha | ⟨e2, he2, hx2⟩
      · rw [he] at hn; cases hn
      · rw [hattr] at ha; cases ha
      · rw [he] at he2
        cases he2
        rw [hx2] at hx
        cases hx
    · rw [heq]
      have he1' : e1 = e := by
        rw [he] at he1
        exact (Option.some.inj he1).symm
      subst he1'
      have hset : (st.doc.set j (addDefault e1))[j]? = some (addDefault e1) :=
        List.getElem?_set_self (List.getElem?_eq_some.mp he).1
      exact procElems_anim_pres as _ (p ++ [j]) j (addDefault e1) hset (addDefault_anim e1)
  | tail b hmem ih =>
    rw [procElems_cons]
    rcases processElement_shape st p b with ⟨_, heq⟩ | ⟨e1, he1, _, _, heq⟩
    · rw [heq]
      exact ih st p e he hattr hx
    · rw [heq]
      by_cases hjb : j = b
      · have he1' : e1 = e := by
          rw [← hjb] at he1
          rw [he] at he1
          exact (Option.some.inj he1).symm
        subst he1'
        have hset : (st.doc.set b (addDefault e1))[j]? = some (addDefault e1) := by
          rw [hjb]
          exact List.getElem?_set_self (List.getElem?_eq_some.mp he1).1
        exact procElems_anim_pres _ _ (p ++ [b]) j (addDefault e1) hset (addDefault_anim e1)
      · have hset : (st.doc.set b (addDefault e1))[j]? = some e :=
          (List.getElem?_set_ne (fun hh => hjb hh.symm)).trans he
        have hattr' : attrTrue { st with doc := st.doc.set b (addDefault e1) }.doc j = false := by
          rw [attrTrue_congr _ st.doc j
            (set_attrAt st.doc b e1 (addDefault e1) he1 (addDefault_dataAnimated e1) j)]
          exact hattr
        have hagd : DocAgree st.doc (st.doc.set b (addDefault e1)) :=
          set_agree st.doc b e1 (addDefault e1) he1 (addDefault_agree e1)
        have hx' : isElementExcluded (st.doc.set b (addDefault e1)) e = false := by
          rw [isElementExcluded_congr st.doc _ e e hagd (agreeOutside_refl e)]
          exact hx
        exact ih _ (p ++ [b]) e hset hattr' hx'

theorem scanSelectors_anim (sels : List String) (st : SA) (p : List Nat) (sel : String)
    (hsel : sel ∈ sels) (hok : selOk sel = true) (j : Nat) (e : Elem)
    (he : st.doc[j]? = some e) (hm : cssMatches sel e = true)
    (hattr : attrTrue st.doc j = false) (hx : isElementExcluded st.doc e = false) :
    ∃ e', (scanSelectors sels (st, p)).1.doc[j]? = some e' ∧
      animationClasses.any (fun c => e'.classes.contains c) = true := by
  induction hsel generalizing st p e with
  | head as =>
    rw [scanSelectors_cons]
    have hq : j ∈ querySelectorAll sel st.doc :=
      (mem_querySelectorAll sel st.doc j).mpr ⟨e, he, hm⟩
    obtain ⟨e1, he1, ha1⟩ := procElems_anim (querySelectorAll sel st.doc) st p j hq e he hattr hx
    rcases hpr : procElems (querySelectorAll sel st.doc) (st, p) with ⟨st1, p1⟩
    rw [hpr] at he1
    exact scanSelectors_anim_pres as st1 p1 j e1 he1 ha1
  | tail b hmem ih =>
    rw [scanSelectors_cons]
    obtain ⟨_, _, _, _, _, at1, _, ag1⟩ := procElems_state (querySelectorAll b st.doc) st p
    rcases hpr : procElems (querySelectorAll b st.doc) (st, p) with ⟨st1, p1⟩
    rw [hpr] at at1 ag1
    rcases (ag1.2 j).1 e he with ⟨e', he', hag⟩
    have hm' : cssMatches sel e' = true := by
      rw [cssMatches_congr sel e e' hok hag]
      exact hm
    have hattr' : attrTrue st1.doc j = false := by
      rw [attrTrue_congr _ _ j (at1 j)]
      exact hattr
    have hx' : isElementExcluded st1.doc e' = false := by
      rw [isElementExcluded_congr st.doc st1.doc e e' ag1 hag]
      exact hx
    exact ih st1 p1 e' he' hm' hattr' hx'

theorem procElems_nomut (L : List Nat) (st : SA) (p : List Nat)
    (h : ∀ i ∈ L, ∀ e, st.doc[i]? = some e →
      e.dataAnimated = some "true" ∨ isElementExcluded st.doc e = true ∨
      animationClasses.any (fun c => e.classes.contains c) = true) :
    (procElems L (st, p)).1 = st := by
  induction L generalizing p with
  | nil => rfl
  | cons i rest ih =>
    rw [procElems_cons]
    rcases processElement_shape st p i with ⟨_, heq⟩ | ⟨e, he, hattr, hx, heq⟩
    · rw [heq]
      exact ih p (fun k hk => h k (List.mem_cons_of_mem i hk))
    · rcases h i (List.mem_cons_self i rest) e he with hmk | hex | han
      · exfalso
        rw [attrTrue_eq st.doc i e he, hmk] at hattr
        cases hattr
      · rw [hex] at hx
        cases hx
      · have hid : addDefault e = e := by
          unfold addDefault
          rw [if_pos han]
        have hstate : ({ st with doc := st.doc.set i (addDefault e) } : SA) = st := by
          rw [hid, list_set_self st.doc i e he]
        rw [heq, hstate]
        exact ih (p ++ [i]) (fun k hk => h k (List.mem_cons_of_mem i hk))

theorem scanSelectors_nomut (sels : List String) (st : SA) (p : List Nat)
    (h : ∀ sel ∈ sels, ∀ i ∈ querySelectorAll sel st.doc, ∀ e, st.doc[i]? = some e →
      e.dataAnimated = some "true" ∨ isElementExcluded st.doc e = true ∨
      animationClasses.any (fun c => e.classes.contains c) = true) :
    (scanSelectors sels (st, p)).1 = st := by
  induction sels generalizing p with
  | nil => rw [scanSelectors_nil]
  | cons sel rest ih =>
    rw [scanSelectors_cons]
    have h1 : (procElems (querySelectorAll sel st.doc) (st, p)).1 = st :=
      procElems_nomut (querySelectorAll sel st.doc) st p
        (h sel (List.mem_cons_self sel rest))
    rcases hpr : procElems (querySelectorAll sel st.doc) (st, p) with ⟨st1, p1⟩
    rw [hpr] at h1
    have h1' : st1 = st := h1
    rw [h1']
    exact ih p1 (fun s hs => h s (List.mem_cons_of_mem sel hs))

theorem scanSelectors_pend_sound (sels : List String) (st : SA) (p : List Nat)
    (hoks : ∀ sel ∈ sels, selOk sel = true) (j : Nat)
    (hj : j ∈ (scanSelectors sels (st, p)).2) :
    j ∈ p ∨ (attrTrue st.doc j = false ∧
      ∃ sel e, sel ∈ sels ∧ st.doc[j]? = some e ∧ cssMatches sel e = true) := by
  induction sels generalizing st p with
  | nil =>
    rw [scanSelectors_nil] at hj
    exact Or.inl hj
  | cons sel rest ih =>
    rw [scanSelectors_cons] at hj
    obtain ⟨_, _, _, _, l1, at1, _, ag1⟩ := procElems_state (querySelectorAll sel st.doc) st p
    rcases procElems_pend (querySelectorAll sel st.doc) st p with ⟨extra, hpe, hcond⟩
    rcases hpr : procElems (querySelectorAll sel st.doc) (st, p) with ⟨st1, p1⟩
    rw [hpr] at l1 at1 ag1 hpe hj
    have hpe' : p1 = p ++ extra := hpe
    rcases ih st1 p1 (fun s hs => hoks s (List.mem_cons_of_mem sel hs)) hj
      with hp1 | ⟨hattr1, sel', e1, hsel', he1, hm1⟩
    · rw [hpe'] at hp1
      rcases List.mem_append.mp hp1 with hp | hx
      · exact Or.inl hp
      · obtain ⟨hq, hattr, _⟩ := hcond j hx
        rcases (mem_querySelectorAll sel st.doc j).mp hq with ⟨e, he, hm⟩
        exact Or.inr ⟨hattr, sel, e, List.mem_cons_self sel rest, he, hm⟩
    · right
      have hattr0 : attrTrue st.doc j = false := by
        rw [← attrTrue_congr _ st.doc j (at1 j)]
        exact hattr1
      have hjlen : j < st.doc.length := by
        rw [← l1]
        exact (List.getElem?_eq_some.mp he1).1
      obtain ⟨e0, he0⟩ := getElem_some_of_lt st.doc j hjlen
      rcases (ag1.2 j).1 _ he0 with ⟨e1', he1', hag⟩
      rw [he1] at he1'
      cases he1'
      refine ⟨hattr0, sel', e0, List.mem_cons_of_mem sel hsel', he0, ?_⟩
      rw [← cssMatches_congr sel' _ e1 (hoks sel' (List.mem_cons_of_mem sel hsel')) hag]
      exact hm1

theorem observeElements_doc (st : SA) :
    (observeElements st).doc = (scanSelectors targetElements (st, [])).1.doc := rfl

theorem scan_output_saturated (st : SA) :
    ∀ sel ∈ targetElements, ∀ i ∈ querySelectorAll sel (observeElements st).doc,
      ∀ e', (observeElements st).doc[i]? = some e' →
      e'.dataAnimated = some "true" ∨
      isElementExcluded (observeElements st).doc e' = true ∨
      animationClasses.any (fun c => e'.classes.contains c) = true := by
  intro sel hsel i hq e' he'
  by_cases hmk : attrTrue (observeElements st).doc i = true
  · left
    rw [attrTrue_eq _ i e' he'] at hmk
    exact eq_of_beq hmk
  · by_cases hex : isElementExcluded (observeElements st).doc e' = true
    · exact Or.inr (Or.inl hex)
    · right; right
      have hmkf : attrTrue (observeElements st).doc i = false := by
        rcases h : attrTrue (observeElements st).doc i with _ | _
        · rfl
        · exact absurd h hmk
      rcases (mem_querySelectorAll sel _ i).mp hq with ⟨e0', he0', hm'⟩
      have he0x : e0' = e' := Option.some.inj (he0'.symm.trans he')
      rw [he0x] at hm'
      have hlen : i < st.doc.length := by
        have h1 := (List.getElem?_eq_some.mp he').1
        rw [observeElements_doc_length] at h1
        exact h1
      obtain ⟨e0, he0⟩ := getElem_some_of_lt st.doc i hlen
      rcases ((observeElements_agree st).2 i).1 _ he0 with ⟨e1, he1, hag⟩
      have he1x : e1 = e' := Option.some.inj (he1.symm.trans he')
      rw [he1x] at hag
      have hm0 : cssMatches sel e0 = true := by
        rw [← cssMatches_congr sel _ e' (targets_selOk sel hsel) hag]
        exact hm'
      have hattr0 : attrTrue st.doc i = false := by
        rw [← attrTrue_congr _ st.doc i (observeElements_attrAt st i)]
        exact hmkf
      have hx0 : isElementExcluded st.doc e0 = false := by
        have hcg := isElementExcluded_congr st.doc (observeElements st).doc
          e0 e' (observeElements_agree st) hag
        rcases hh : isElementExcluded st.doc e0 with _ | _
        · rfl
        · rw [hh] at hcg
          exact absurd hcg hex
      obtain ⟨e'', he'', han⟩ := scanSelectors_anim targetElements st [] sel hsel
        (targets_selOk sel hsel) i e0 he0 hm0 hattr0 hx0
      rw [← observeElements_doc] at he''
      have heqq : e'' = e' := Option.some.inj (he''.symm.trans he')
      rw [heqq] at han
      exact han

theorem scan_pend2_sub (st : SA) (j : Nat)
    (hj : j ∈ (scanSelectors targetElements (observeElements st, [])).2) :
    j ∈ (observeElements st).observed := by
  rcases scanSelectors_pend_sound targetElements (observeElements st) [] targets_selOk j hj
    with hnil | ⟨hattr1, sel, e1, hsel, he1, hm1⟩
  · cases hnil
  · by_cases hex : isElementExcluded (observeElements st).doc e1 = true
    · exact absurd ((scanSelectors_excl_entry targetElements (observeElements st) []
        (observeElements st).doc (DocAgree_refl _) j e1 he1 hex).2 hj) (List.not_mem_nil j)
    · have hlen : j < st.doc.length := by
        have h1 := (List.getElem?_eq_some.mp he1).1
        rw [observeElements_doc_length] at h1
        exact h1
      obtain ⟨e0, he0⟩ := getElem_some_of_lt st.doc j hlen
      rcases ((observeElements_agree st).2 j).1 _ he0 with ⟨e1', he1', hag⟩
      have he1y : e1' = e1 := Option.some.inj (he1'.symm.trans he1)
      rw [he1y] at hag
      have hm0 : cssMatches sel e0 = true := by
        rw [← cssMatches_congr sel _ e1 (targets_selOk sel hsel) hag]
        exact hm1
      have hattr0 : attrTrue st.doc j = false := by
        rw [← attrTrue_congr _ st.doc j (observeElements_attrAt st j)]
        exact hattr1
      have hx0 : isElementExcluded st.doc e0 = false := by
        have hcg := isElementExcluded_congr st.doc (observeElements st).doc
          e0 e1 (observeElements_agree st) hag
        rcases hh : isElementExcluded st.doc e0 with _ | _
        · rfl
        · rw [hh] at hcg
          exact absurd hcg hex
      exact observeElements_complete st sel hsel j e0 he0 hm0 hattr0 hx0

/-- **C7.**  The scan is idempotent: running it twice equals running it
once (same document, same watched set, same whole state); the watched set
is duplicate-free; no activation is performed by scanning; and an element
already marked `data-animated="true"` keeps its exact entry and is watched
after the double scan only if it was watched before. -/
theorem C7_scan_idempotent (st : SA) (hnd : st.observed.Nodup) :
    observeElements (observeElements st) = observeElements st ∧
    (observeElements (observeElements st)).observed.Nodup ∧
    (observeElements (observeElements st)).acts = st.acts ∧
    ∀ i e, st.doc[i]? = some e → e.dataAnimated = some "true" →
      (observeElements (observeElements st)).doc[i]? = some e ∧
      (i ∈ (observeElements (observeElements st)).observed ↔ i ∈ st.observed) := by
  have heq : observeElements (observeElements st) = observeElements st := by
    rw [observeElements_def (observeElements st)]
    have hA : (scanSelectors targetElements (observeElements st, [])).1 =
        observeElements st :=
      scanSelectors_nomut targetElements (observeElements st) [] (scan_output_saturated st)
    rw [hA]
    have hB : observeAddAll (scanSelectors targetElements (observeElements st, [])).2
        (observeElements st).observed = (observeElements st).observed :=
      observeAddAll_absorb _ _ (fun j hj => scan_pend2_sub st j hj)
    rw [hB]
  refine ⟨heq, ?_, ?_, ?_⟩
  · rw [heq]
    exact observeElements_nodup st hnd
  · rw [heq]
    exact observeElements_acts st
  · intro i e he hm
    have hattr : attrTrue st.doc i = true := by
      rw [attrTrue_eq st.doc i e he, hm]
      rfl
    constructor
    · rw [heq, observeElements_doc]
      rw [scanSelectors_marked_entry targetElements st [] i hattr]
      exact he
    · rw [heq]
      exact observeElements_marked st i hattr

/-- Witness for C7 at a concrete already-marked document. -/
theorem C7_witness :
    observeElements (observeElements ⟨[⟨"DIV", [], some "true", []⟩], [], [], [], 0⟩) =
      observeElements ⟨[⟨"DIV", [], some "true", []⟩], [], [], [], 0⟩ ∧
    (observeElements (observeElements
        ⟨[⟨"DIV", [], some "true", []⟩], [], [], [], 0⟩)).doc[0]? =
      some ⟨"DIV", [], some "true", []⟩ :=
  ⟨(C7_scan_idempotent ⟨[⟨"DIV", [], some "true", []⟩], [], [], [], 0⟩ List.nodup_nil).1,
   ((C7_scan_idempotent ⟨[⟨"DIV", [], some "true", []⟩], [], [], [], 0⟩
     List.nodup_nil).2.2.2 0 ⟨"DIV", [], some "true", []⟩ rfl rfl).1⟩
